import Mathlib

/-!
Verification model of the Marabunta `Lua_` bridge layer.

This file gives a shallow embedding, in Lean, of the format-string argument
marshaler (`SourceCode/game/Lua_/Support.cpp`: struct `Reader` and
`Lua::CallCore`), of the member-binding peer layer
(`SourceCode/game/Lua_/Peer.cpp`: `IndexMember`, `NewIndexMember`, `Lookup`,
`Index`, `NewIndex`) and of the reference-counted boxed setter
(`SourceCode/game/Lua_/Templates.h`: `luaT_boxed_set_ref`), together with
theorems about the behaviour of those definitions.

Modelling conventions:
* The Lua stack is a `List LuaValue` whose head is the stack top.
* Lua tables are association lists; `lua_rawset` behaviour (replace or
  append, delete on nil) is implemented structurally.  Table keys compare
  structurally in the model; every key exercised here is a primitive value,
  for which structural and Lua primitive equality agree.
* The C `va_list` is a `List NativeArg`; each `va_arg` pops the head.
* Lua numbers (C doubles) are modelled as `Rat`.  The one lossy numeric
  conversion in scope, the C `double` to `float` cast performed when a
  `Member_Reg::eFloat` field is assigned, is modelled by an explicit
  conversion parameter `conv : Rat → Rat` threaded through the peer model.
* Fuel (`Nat`) makes the recursive format-string reader total; `RRes.timeout`
  marks fuel exhaustion, an artefact of the embedding that no theorem ever
  identifies with real behaviour.
* Unrecoverable Lua runtime errors raised from C context with no protected
  frame below (for example `lua_settable` applied to a non-table) are
  modelled as `RRes.crash`.
-/

namespace Lua

mutual

/-- A dynamically tagged Lua value.  Tables carry their entries inline as an
association list (`EntryList`). -/
inductive LuaValue where
  | nil
  | boolean (b : Bool)
  | number (q : Rat)
  | str (s : String)
  | cfunction (id : Nat)
  | lightuserdata (p : Nat)
  | table (entries : EntryList)
  deriving DecidableEq

inductive EntryList where
  | none
  | cons (k v : LuaValue) (rest : EntryList)
  deriving DecidableEq

end

/-- Raw table read (`lua_rawget`): value stored for a key, nil if absent. -/
def EntryList.rawget : EntryList → LuaValue → LuaValue
  | .none, _ => .nil
  | .cons k v rest, key => if k = key then v else rest.rawget key

/-- Raw table write (`lua_rawset` / `lua_rawseti`): replace an existing
entry, append a new one, delete when the value is nil. -/
def EntryList.rawset : EntryList → LuaValue → LuaValue → EntryList
  | .none, key, value => if value = .nil then .none else .cons key value .none
  | .cons k v rest, key, value =>
      if k = key then
        if value = .nil then rest else .cons k value rest
      else .cons k v (rest.rawset key value)

/-- Number of entries stored in a table. -/
def EntryList.size : EntryList → Nat
  | .none => 0
  | .cons _ _ rest => rest.size + 1

/-- Helper for `EntryList.objlen`: scan upward from index `acc + 1` while
consecutive integer keys are present. -/
def EntryList.objlenAux (es : EntryList) : Nat → Nat → Nat
  | 0, acc => acc
  | f + 1, acc =>
      if es.rawget (.number ((acc + 1 : Nat) : Rat)) = .nil then acc
      else es.objlenAux f (acc + 1)

/-- The `lua_objlen` of a table (used by `Lua::GetN`, Helpers.cpp line 373):
the length of the initial run of consecutive integer keys `1, 2, ...`.
For tables whose array part is gap-free — the only tables this subsystem
builds — this is exactly Lua 5.1's border. -/
def EntryList.objlen (es : EntryList) : Nat :=
  es.objlenAux (es.size + 1) 0

/-- One cell of a C `va_list` as consumed by the marshaler. -/
inductive NativeArg where
  | int (i : Int)
  | boolean (b : Bool)
  | cfunc (id : Nat)
  | num (q : Rat)
  | str (s : String)
  | ptr (p : Nat)
  deriving DecidableEq

/-- The `int` read by `va_arg(mArgs, int)`; reading a mismatched cell is
undefined behaviour in C and yields a junk default here. -/
def NativeArg.asInt : NativeArg → Int
  | .int i => i
  | _ => 0

/-- The `bool` read by `va_arg(mArgs, bool)`. -/
def NativeArg.asBool : NativeArg → Bool
  | .boolean b => b
  | _ => false

/-- The `lua_CFunction` read by `va_arg(mArgs, lua_CFunction)`. -/
def NativeArg.asCFunc : NativeArg → Nat
  | .cfunc id => id
  | _ => 0

/-- The `double` read by `va_arg(mArgs, double)`. -/
def NativeArg.asNum : NativeArg → Rat
  | .num q => q
  | _ => 0

/-- The `const char *` read by `va_arg(mArgs, const char *)`. -/
def NativeArg.asStr : NativeArg → String
  | .str s => s
  | _ => ""

/-- The `void *` read by `va_arg(mArgs, void *)`; `0` is `NULL`. -/
def NativeArg.asPtr : NativeArg → Nat
  | .ptr p => p
  | _ => 0

/-- State of the argument reader, mirroring `struct Reader`
(Support.cpp lines 12..25) plus the Lua stack it manipulates.
`toks` is the unread suffix of the parameter string with the head standing
for `*mParams`; `globals` abstracts the value `Lua::GetGlobal` leaves on the
stack for a name, and `pseudo` the value `lua_pushvalue` reads from a
pseudo-index (registry, environment or upvalue slot). -/
structure RState where
  toks : List Char
  args : List NativeArg
  stack : List LuaValue
  height : Nat
  mTop : Int
  inKey : Bool
  inValue : Bool
  shouldSkip : Bool
  err : Option String
  globals : String → LuaValue
  pseudo : Int → LuaValue

/-- Result of running a piece of the reader. -/
inductive RRes where
  | timeout
  | crash (msg : String)
  | done (keep : Bool) (st : RState)

/-- `Reader::Error` (Support.cpp line 29): record the first error and
report failure. -/
def RState.fail (st : RState) (e : String) : RRes :=
  .done false { st with err := some (st.err.getD e) }

/-- Pop the next vararg (`va_arg`); an exhausted list, undefined behaviour
in C, yields a junk cell. -/
def RState.next (st : RState) : NativeArg × RState :=
  match st.args with
  | [] => (.int 0, st)
  | a :: rest => (a, { st with args := rest })

/-- Push a value unless element suppression (`mShouldSkip`) is active. -/
def RState.push (st : RState) (v : LuaValue) : RState :=
  if st.shouldSkip then st else { st with stack := v :: st.stack }

/-- Advance `mParams` by `n` characters. -/
def RState.advance (st : RState) (n : Nat) : RState :=
  { st with toks := st.toks.drop n }

/-- The value at stack position `i` (1-based from the bottom, as in the Lua
API); only consulted after the reader's own bounds check. -/
def stackSlot (s : List LuaValue) (i : Int) : LuaValue :=
  if 1 ≤ i ∧ i ≤ s.length then s.getD (s.length - i.toNat) .nil else .nil

/-- `LUA_REGISTRYINDEX` of Lua 5.1. -/
def LUA_REGISTRYINDEX : Int := -10000

/-- `lua_upvalueindex(256)` of Lua 5.1 (`LUA_GLOBALSINDEX - 256`). -/
def upvalueindex256 : Int := -10258

/-- `Reader::_a` (Support.cpp lines 37..53), serving both the `a` and the
`r` directive; `c` is the directive character `*mParams`. -/
def readA (c : Char) (st0 : RState) : RRes :=
  let (a, st) := st0.next
  let arg0 : Int := a.asInt
  if upvalueindex256 ≤ arg0 ∧ arg0 ≤ LUA_REGISTRYINDEX then
    -- pseudo-index: accepted without adjustment or bounds check
    if st.inKey ∧ st.pseudo arg0 = .nil then st.fail "Null key"
    else .done true (st.push (st.pseudo arg0))
  else
    let arg : Int :=
      if arg0 < 0 then
        arg0 + (if c = 'a' then st.mTop else (st.stack.length : Int) + 1)
      else arg0
    if arg ≤ 0 ∨ arg > (st.stack.length : Int) then st.fail "Bad index"
    else if st.inKey ∧ stackSlot st.stack arg = .nil then st.fail "Null key"
    else .done true (st.push (stackSlot st.stack arg))

/-- `Reader::_b` (lines 56..61), serving `b`, `T` and `F`. -/
def readB (c : Char) (st0 : RState) : RRes :=
  if c = 'b' then
    let (a, st) := st0.next
    .done true (st.push (.boolean a.asBool))
  else .done true (st0.push (.boolean (c = 'T')))

/-- `Reader::_f` (lines 64..69). -/
def readF (st0 : RState) : RRes :=
  let (a, st) := st0.next
  .done true (st.push (.cfunction a.asCFunc))

/-- `Reader::_i` (lines 72..77); `lua_pushinteger` puts the int on the
stack as a number. -/
def readI (st0 : RState) : RRes :=
  let (a, st) := st0.next
  .done true (st.push (.number a.asInt))

/-- `Reader::_n` (lines 80..85). -/
def readN (st0 : RState) : RRes :=
  let (a, st) := st0.next
  .done true (st.push (.number a.asNum))

/-- `Reader::_s` (lines 88..93). -/
def readS (st0 : RState) : RRes :=
  let (a, st) := st0.next
  .done true (st.push (.str a.asStr))

/-- `Reader::_u` (lines 96..113), serving `u` and `U`.  The whole body,
including the null-pointer error for `U`, sits inside `if (!mShouldSkip)`. -/
def readU (c : Char) (st0 : RState) : RRes :=
  let (a, st) := st0.next
  let p := a.asPtr
  if st.shouldSkip then .done true st
  else if p = 0 then
    if c = 'U' then st.fail "Null userdata"
    else .done true { st with stack := .nil :: st.stack }
  else .done true { st with stack := .lightuserdata p :: st.stack }

/-- `Reader::_0` (lines 116..123). -/
def read0 (st : RState) : RRes :=
  if st.inKey then st.fail "Null key"
  else .done true (st.push .nil)

/-- `Reader::_G` (lines 126..131); `Lua::GetGlobal` resolves the dotted
name and leaves one value, abstracted by the `globals` map. -/
def readG (st0 : RState) : RRes :=
  let (a, st) := st0.next
  .done true (st.push (st.globals a.asStr))

/-- `Lua::Push(L, -2)` (Helpers.cpp lines 299..302) as used by
`Reader::_table` line 147: `lua_rawseti` the stack top into the table that
sits directly below it, at index `objlen + 1`.  `lua_rawseti` on a
non-table raises an unrecoverable runtime error. -/
def pushAbsorb (st : RState) : Option RState :=
  match st.stack with
  | v :: .table es :: rest =>
      some { st with
        stack := LuaValue.table (es.rawset (.number ((es.objlen + 1 : Nat) : Rat)) v) :: rest }
  | _ => Option.none

/-- `lua_settable(mL, -3)` as used by `Reader::_K` line 195: pop value and
key, store into the table below.  A non-table target or a nil key raises an
unrecoverable runtime error. -/
def setTable3 (st : RState) : Option RState :=
  match st.stack with
  | v :: k :: .table es :: rest =>
      if k = .nil then Option.none
      else some { st with stack := .table (es.rawset k v) :: rest }
  | _ => Option.none

/-- Characters accepted by C `isspace`. -/
def isSpaceC (c : Char) : Bool :=
  c = ' ' ∨ c = '\t' ∨ c = '\n' ∨ c = '\x0b' ∨ c = '\x0c' ∨ c = '\r'

/-- The two mutually recursive entry points of the reader, staged by fuel:
`elem` is `Reader::ReadElement`, `tloop` the loop inside `Reader::_table`. -/
structure ReadFns where
  elem : RState → RRes
  tloop : RState → RRes

/-- Body of the `for (++mParams; ; ++mParams)` loop of `Reader::_table`
(lines 140..151): read one element; on failure report "Unclosed table"; if
the stack grew, absorb the new top into the table; otherwise stop on a
closing brace; in either remaining case skip the element's last character
and iterate. -/
def tableBody (p : ReadFns) (st : RState) : RRes :=
  let top := st.stack.length
  match p.elem st with
  | .timeout => .timeout
  | .crash m => .crash m
  | .done false st' => st'.fail "Unclosed table"
  | .done true st' =>
      if st'.stack.length > top then
        match pushAbsorb st' with
        | Option.none => .crash "rawseti target is not a table"
        | some st'' => p.tloop (st''.advance 1)
      else if st'.toks.head? = some '}' then .done true st'
      else p.tloop (st'.advance 1)

/-- `Reader::_table` (lines 134..156): raise the nesting height, push a
fresh table unless suppressed, skip the `{` and run the element loop; the
height is lowered only on the successful (break) exit. -/
def tableEnter (p : ReadFns) (st0 : RState) : RRes :=
  let st1 := { st0 with height := st0.height + 1 }
  let st2 := if st1.shouldSkip then st1 else { st1 with stack := .table .none :: st1.stack }
  match p.tloop (st2.advance 1) with
  | .done true st' => .done true { st' with height := st'.height - 1 }
  | r => r

/-- `Reader::_C` (lines 159..175): reject conditionals in key or value
position, consume the condition boolean, set suppression for the next
element unless already suppressed, read that element, then restore the
saved suppression flag (only on success, as in the source). -/
def condBody (p : ReadFns) (st0 : RState) : RRes :=
  if st0.inKey then st0.fail "Conditional key"
  else if st0.inValue then st0.fail "Conditional value"
  else
    let st1 := st0.advance 1
    let (a, st2) := st1.next
    let bSkipSave := st2.shouldSkip
    let bDoSkip := !a.asBool
    let st3 := if st2.shouldSkip then st2 else { st2 with shouldSkip := bDoSkip }
    match p.elem st3 with
    | .timeout => .timeout
    | .crash m => .crash m
    | .done false st' => st'.fail "Unfinished condition"
    | .done true st' => .done true { st' with shouldSkip := bSkipSave }

/-- `Reader::_K` (lines 178..198): skip the `K`, read the key element with
`mInKey` set, skip the key's last character, read the value element with
`mInValue` set, then `lua_settable` both into the table unless
suppressed. -/
def keyBody (p : ReadFns) (st0 : RState) : RRes :=
  let st1 := { st0.advance 1 with inKey := true }
  match p.elem st1 with
  | .timeout => .timeout
  | .crash m => .crash m
  | .done false st' => st'.fail "Missing key"
  | .done true st' =>
      let st2 := { st'.advance 1 with inKey := false, inValue := true }
      match p.elem st2 with
      | .timeout => .timeout
      | .crash m => .crash m
      | .done false st'' => st''.fail "Missing value"
      | .done true st'' =>
          let st3 := { st'' with inValue := false }
          if st3.shouldSkip then .done true st3
          else
            match setTable3 st3 with
            | Option.none => .crash "settable target invalid"
            | some st4 => .done true st4

/-- Case labels of the `switch (*mParams)` inside `Reader::ReadElement`
(lines 208..253). -/
inductive Dir where
  | dA
  | dB
  | dF
  | dI
  | dN
  | dS
  | dU
  | d0
  | dG
  | dTable
  | dClose
  | dC
  | dK
  | dBad
  deriving DecidableEq

/-- The case label a directive character selects. -/
def classify (c : Char) : Dir :=
  if c = 'a' ∨ c = 'r' then .dA
  else if c = 'b' ∨ c = 'T' ∨ c = 'F' then .dB
  else if c = 'f' then .dF
  else if c = 'i' then .dI
  else if c = 'n' then .dN
  else if c = 's' then .dS
  else if c = 'u' ∨ c = 'U' then .dU
  else if c = '0' then .d0
  else if c = 'g' then .dG
  else if c = '{' then .dTable
  else if c = '}' then .dClose
  else if c = 'C' then .dC
  else if c = 'K' then .dK
  else .dBad

/-- The dispatch switch of `Reader::ReadElement` (lines 207..253),
applied after the space-skipping loop. -/
def elemCore (p : ReadFns) (st : RState) : RRes :=
  match st.toks.head? with
  | Option.none => .done false st
  | some c =>
      match classify c with
      | .dA => readA c st
      | .dB => readB c st
      | .dF => readF st
      | .dI => readI st
      | .dN => readN st
      | .dS => readS st
      | .dU => readU c st
      | .d0 => read0 st
      | .dG => readG st
      | .dTable => tableEnter p st
      | .dClose =>
          if st.height = 0 then st.fail "Unopened table" else .done true st
      | .dC => condBody p st
      | .dK =>
          if st.height = 0 then st.fail "Key outside table" else keyBody p st
      | .dBad => st.fail "Bad type"

/-- `Reader::ReadElement` (lines 202..257): skip spaces, then branch on
the current character. -/
def elemBody (p : ReadFns) (st0 : RState) : RRes :=
  elemCore p { st0 with toks := st0.toks.dropWhile isSpaceC }

/-- The non-recursive (flat) cases of the dispatch switch, collected into
one function of the directive character; the recursive and malformed cases
are mapped to the "Bad type" error they could never reach when applied to
a flat directive. -/
def flatReader (c : Char) (st : RState) : RRes :=
  match classify c with
  | .dA => readA c st
  | .dB => readB c st
  | .dF => readF st
  | .dI => readI st
  | .dN => readN st
  | .dS => readS st
  | .dU => readU c st
  | .d0 => read0 st
  | .dG => readG st
  | .dTable => st.fail "Bad type"
  | .dClose => st.fail "Bad type"
  | .dC => st.fail "Bad type"
  | .dK => st.fail "Bad type"
  | .dBad => st.fail "Bad type"

/-- Fuel-staged construction of the reader: level `n + 1` runs the bodies
with level-`n` functions at every recursive position. -/
def fns : Nat → ReadFns
  | 0 => ⟨fun _ => .timeout, fun _ => .timeout⟩
  | n + 1 => ⟨elemBody (fns n), tableBody (fns n)⟩

/-- `Reader::ReadElement` with fuel. -/
def readElement (fuel : Nat) (st : RState) : RRes :=
  (fns fuel).elem st

/-- The parse loop of `Lua::CallCore` (Support.cpp line 293):
`while (r.ReadElement()) ++r.mParams;`.  A `done false` result carries the
reader state at which reading stopped. -/
def readLoop : Nat → RState → RRes
  | 0, _ => .timeout
  | n + 1, st =>
      match readElement (n + 1) st with
      | .done true st' => readLoop n (st'.advance 1)
      | r => r

/-- Outcome of invoking the marshaled target.  For the protected path this
is the contract of `PCall_EF` (Helpers.cpp lines 399..416): `lua_pcall`
with `ErrorFunc` installed pops the callable and its arguments and either
leaves the results (success) or one string on top — `ErrorFunc` returns the
message decorated with a per-frame traceback, and the out-of-memory and
error-in-error-handling cases leave fixed strings.  Result lists are
top-first, like stacks. -/
inductive PCallStatus where
  | success (results : List LuaValue)
  | failure (msg : String)

/-- `lua_settop` to height `n`: truncate, or pad with nil above. -/
def settopL (n : Nat) (s : List LuaValue) : List LuaValue :=
  if n ≤ s.length then s.drop (s.length - n)
  else List.replicate (n - s.length) .nil ++ s

/-- Adjustment of a call's results to the requested count: `LUA_MULTRET`
(negative) keeps all, otherwise extras are dropped and missing results are
padded with nil on top. -/
def adjustRes (retc : Int) (rs : List LuaValue) : List LuaValue :=
  if retc < 0 then rs
  else if rs.length ≤ retc.toNat then List.replicate (retc.toNat - rs.length) .nil ++ rs
  else rs.drop (rs.length - retc.toNat)

/-- Outcome of `Lua::CallCore`.  `fatal` covers `luaL_error` and every
other unrecoverable runtime abort; `thrown` is the C++ `throw` of a
`Types::LuaString`; `invoked` records whether the target was invoked. -/
inductive CCOut where
  | timeout
  | fatal (msg : String)
  | thrown (msg : String) (stack : List LuaValue) (invoked : Bool)
  | ok (nres : Int) (stack : List LuaValue) (invoked : Bool)
  deriving DecidableEq

/-- The reader state `Lua::CallCore` builds (Support.cpp lines 287..289):
`Reader r(args, L, params, top - count)`. -/
def mkReader (toks : List Char) (args : List NativeArg) (stack0 : List LuaValue)
    (count : Nat) (globals : String → LuaValue) (pseudo : Int → LuaValue) : RState :=
  { toks := toks, args := args, stack := stack0, height := 0,
    mTop := (stack0.length : Int) - count, inKey := false, inValue := false,
    shouldSkip := false, err := Option.none, globals := globals, pseudo := pseudo }

/-- The invocation half of `Lua::CallCore` (Support.cpp lines 295..319),
run on the reader state `st` the parse left behind.  `count0` is the
argument count passed in, `top` the stack height recorded on entry.
`target` abstracts what the callable does with the marshaled argument list
(given bottom-first).  A negative final argument count would violate the
`lua_call` / `lua_pcall` precondition (possible only through
stack-corrupting parses whose `lua_settable` would have aborted anyway)
and is mapped to `fatal`. -/
def CallCoreFinish (retc : Int) (count0 : Nat) (top : Int)
    (target : List LuaValue → PCallStatus) (bProtected : Bool) (st : RState) : CCOut :=
  let count : Int := (count0 : Int) + ((st.stack.length : Int) - top)
  let after : Int := (st.stack.length : Int) - count - 1
  if bProtected then
    match st.err with
    | some e => .thrown e (settopL after.toNat st.stack) false
    | Option.none =>
        if count < 0 then .fatal "negative argument count"
        else
          match target ((st.stack.take count.toNat).reverse) with
          | .success rs =>
              let s' := adjustRes retc rs ++ st.stack.drop (count.toNat + 1)
              .ok ((s'.length : Int) - after) s' true
          | .failure m => .thrown m (settopL after.toNat st.stack) true
  else
    match st.err with
    | some e => .fatal e
    | Option.none =>
        if count < 0 then .fatal "negative argument count"
        else
          match target ((st.stack.take count.toNat).reverse) with
          | .success rs =>
              let s' := adjustRes retc rs ++ st.stack.drop (count.toNat + 1)
              .ok ((s'.length : Int) - after) s' true
          | .failure m => .fatal m

/-- `Lua::CallCore` (Support.cpp lines 284..320).  The Lua stack on entry
is `pre ++ func :: rest` (head = top): below the marshaling there are the
base stack `rest`, the target callable `func`, and `count = pre.length`
already-pushed arguments.  The format string is parsed unless empty, then
`CallCoreFinish` performs the invocation. -/
def CallCore (fuel : Nat) (rest : List LuaValue) (func : LuaValue) (pre : List LuaValue)
    (retc : Int) (toks : List Char) (args : List NativeArg)
    (globals : String → LuaValue) (pseudo : Int → LuaValue)
    (target : List LuaValue → PCallStatus) (bProtected : Bool) : CCOut :=
  match if toks.isEmpty
      then RRes.done false (mkReader toks args (pre ++ func :: rest) pre.length globals pseudo)
      else readLoop fuel (mkReader toks args (pre ++ func :: rest) pre.length globals pseudo) with
  | .timeout => .timeout
  | .crash m => .fatal m
  | .done _ st =>
      CallCoreFinish retc pre.length ((pre ++ func :: rest).length : Int) target bProtected st

namespace Peer

/-- `Member_Reg::Type` (Peer.h lines 13..20). -/
inductive MTy where
  | ePointer
  | eSChar
  | eSShort
  | eSLong
  | eSInt
  | eUChar
  | eUShort
  | eULong
  | eUInt
  | eString
  | eBoolean
  | eFloat
  | eDouble
  deriving DecidableEq

/-- One typed native memory cell.  Native memory is modelled at the
granularity the peer layer reads and writes it: each address holds the last
typed store; reading with a mismatched type, byte reinterpretation in C,
yields junk here.  Widths follow the 32-bit MSVC target: char 8, short 16,
int 32, long 32 bits. -/
inductive Cell where
  | uninit
  | cptr (p : Nat)
  | cschar (v : Int)
  | csshort (v : Int)
  | cslong (v : Int)
  | csint (v : Int)
  | cuchar (v : Nat)
  | cushort (v : Nat)
  | culong (v : Nat)
  | cuint (v : Nat)
  | cstr (s : String)
  | cbool (b : Bool)
  | cfloat (q : Rat)
  | cdouble (q : Rat)
  deriving DecidableEq

/-- Native memory. -/
def Mem := Nat → Cell

/-- Store one cell. -/
def memWrite (m : Mem) (a : Nat) (c : Cell) : Mem :=
  fun x => if x = a then c else m x

/-- C truncation toward zero of a `lua_Number`, as done by the `(int)` cast
inside `luaL_checkint`; exact for integral rationals, the only inputs the
theorems use. -/
def cTrunc (q : Rat) : Int := q.num / (q.den : Int)

/-- Two's-complement wrap of an integer cast to a signed width-`w` type. -/
def wrapS (w : Nat) (i : Int) : Int :=
  (i + 2 ^ (w - 1)) % 2 ^ w - 2 ^ (w - 1)

/-- Wrap of an integer cast to an unsigned width-`w` type. -/
def wrapU (w : Nat) (i : Int) : Nat :=
  (i % 2 ^ w).toNat

/-- The value `IndexMember` (Peer.cpp lines 40..90) pushes for a member of
the given type: the typed load at the member address, converted with
`lua_pushinteger` / `lua_pushnumber` / `lua_pushstring` /
`lua_pushboolean` / `lua_pushlightuserdata`. -/
def readCell : MTy → Cell → LuaValue
  | .ePointer, .cptr p => .lightuserdata p
  | .eSChar, .cschar v => .number v
  | .eSShort, .csshort v => .number v
  | .eSLong, .cslong v => .number v
  | .eSInt, .csint v => .number v
  | .eUChar, .cuchar v => .number v
  | .eUShort, .cushort v => .number v
  | .eULong, .culong v => .number v
  | .eUInt, .cuint v => .number v
  | .eString, .cstr s => .str s
  | .eBoolean, .cbool b => .boolean b
  | .eFloat, .cfloat q => .number q
  | .eDouble, .cdouble q => .number q
  | _, _ => .nil

/-- `luaL_checkint` (via `Lua::sC`..`Lua::uI`, Arg.cpp): a number, truncated
toward zero.  Lua's numeric-string coercion is outside the model. -/
def checkint : LuaValue → Except String Int
  | .number q => .ok (cTrunc q)
  | _ => .error "number expected"

/-- `luaL_checknumber` (via `Lua::F` / `Lua::D`, Arg.cpp). -/
def checknumber : LuaValue → Except String Rat
  | .number q => .ok q
  | _ => .error "number expected"

/-- `luaL_checkstring` (via `Lua::S`, Arg.cpp); numbers convert to their
decimal text, abstracted by `toString`. -/
def checkstring : LuaValue → Except String String
  | .str s => .ok s
  | .number q => .ok (toString q)
  | _ => .error "string expected"

/-- `luaL_checktype(L, i, LUA_TBOOLEAN)` then `lua_toboolean`
(`Lua::B`, Arg.cpp lines 171..176). -/
def checkboolean : LuaValue → Except String Bool
  | .boolean b => .ok b
  | _ => .error "boolean expected"

/-- `Lua::UD` (Arg.cpp lines 188..193): any userdata's memory; the model
carries light userdata only. -/
def checkud : LuaValue → Except String Nat
  | .lightuserdata p => .ok p
  | _ => .error "not a userdata"

/-- The cell `NewIndexMember` (Peer.cpp lines 102..152) stores for a member
of the given type.  `conv` is the C `double`-to-`float` conversion applied
by the `eFloat` arm's `Set(L, pData, F)`. -/
def writeCell (conv : Rat → Rat) : MTy → LuaValue → Except String Cell
  | .ePointer, v => (checkud v).map .cptr
  | .eSChar, v => (checkint v).map fun i => .cschar (wrapS 8 i)
  | .eSShort, v => (checkint v).map fun i => .csshort (wrapS 16 i)
  | .eSLong, v => (checkint v).map fun i => .cslong (wrapS 32 i)
  | .eSInt, v => (checkint v).map fun i => .csint (wrapS 32 i)
  | .eUChar, v => (checkint v).map fun i => .cuchar (wrapU 8 i)
  | .eUShort, v => (checkint v).map fun i => .cushort (wrapU 16 i)
  | .eULong, v => (checkint v).map fun i => .culong (wrapU 32 i)
  | .eUInt, v => (checkint v).map fun i => .cuint (wrapU 32 i)
  | .eString, v => (checkstring v).map .cstr
  | .eBoolean, v => (checkboolean v).map .cbool
  | .eFloat, v => (checknumber v).map fun q => .cfloat (conv q)
  | .eDouble, v => (checknumber v).map .cdouble

/-- One `{eDOffset, eDType}` descriptor record as `BindPeer`
(Peer.cpp lines 262..271) stores it under the member's name. -/
structure Desc where
  offset : Nat
  ty : MTy
  deriving DecidableEq

/-- Lookup in one of the peer's name-keyed Lua tables (descriptor, getter
or setter table); they carry no metatables, so `lua_gettable` is a raw
first-match lookup. -/
def lookupKV {α : Type _} : List (LuaValue × α) → LuaValue → Option α
  | [], _ => Option.none
  | (k', v) :: rest, k => if k' = k then some v else lookupKV rest k

/-- A getter override: called as `getter(object, key, data)` and returning
one value, with arbitrary side effects on native memory. -/
def GetterFn := LuaValue → LuaValue → LuaValue → Mem → Mem × LuaValue

/-- A setter override: called as `setter(object, key, value, data)` with
zero results. -/
def SetterFn := LuaValue → LuaValue → LuaValue → LuaValue → Mem → Mem

/-- `Lookup` (Peer.cpp lines 156..167): for a boxed binding, dereference
the object's first machine word to reach the real datum; otherwise the
object's own memory is the datum. -/
def Lookup (bBoxed : Bool) (mem : Mem) (object : LuaValue) : Except String LuaValue :=
  if bBoxed then
    match object with
    | .lightuserdata a =>
        match mem a with
        | .cptr p => .ok (.lightuserdata p)
        | _ => .error "boxed object does not hold a pointer"
    | _ => .error "Argument 1 is not a userdata"
  else .ok object

/-- The `__index` closure `Index` (Peer.cpp lines 174..205). -/
def Index (bBoxed : Bool) (descr : List (LuaValue × Desc))
    (getters : List (LuaValue × GetterFn)) (mem : Mem)
    (object key : LuaValue) : Except String (Mem × LuaValue) :=
  match Lookup bBoxed mem object with
  | .error e => .error e
  | .ok data =>
      match lookupKV getters key with
      | some g => .ok (g object key data mem)
      | Option.none =>
          match lookupKV descr key with
          | Option.none => .ok (mem, .nil)
          | some d =>
              match data with
              | .lightuserdata a => .ok (mem, readCell d.ty (mem (a + d.offset)))
              | _ => .error "Argument 1 is not a userdata"

/-- The `__newindex` closure `NewIndex` (Peer.cpp lines 213..242). -/
def NewIndex (bBoxed : Bool) (descr : List (LuaValue × Desc))
    (setters : List (LuaValue × SetterFn)) (conv : Rat → Rat) (mem : Mem)
    (object key value : LuaValue) : Except String Mem :=
  match Lookup bBoxed mem object with
  | .error e => .error e
  | .ok data =>
      match lookupKV setters key with
      | some s => .ok (s object key value data mem)
      | Option.none =>
          match lookupKV descr key with
          | Option.none => .ok mem
          | some d =>
              match data with
              | .lightuserdata a =>
                  match writeCell conv d.ty value with
                  | .error e => .error e
                  | .ok c => .ok (memWrite mem (a + d.offset) c)
              | _ => .error "Argument 1 is not a userdata"

/-- Write a member through `NewIndex`, then read the same member back
through `Index`, yielding the value read. -/
def roundTrip (bBoxed : Bool) (descr : List (LuaValue × Desc))
    (getters : List (LuaValue × GetterFn)) (setters : List (LuaValue × SetterFn))
    (conv : Rat → Rat) (mem : Mem) (object key value : LuaValue) :
    Except String LuaValue :=
  match NewIndex bBoxed descr setters conv mem object key value with
  | .error e => .error e
  | .ok m' =>
      match Index bBoxed descr getters m' object key with
      | .error e => .error e
      | .ok (_, r) => .ok r

/-- A Lua value of a member's native type: one whose typed store is
lossless, so the member really holds it. -/
def TypedFor (conv : Rat → Rat) : MTy → LuaValue → Prop
  | .ePointer, v => ∃ p, v = .lightuserdata p
  | .eSChar, v => ∃ i : Int, v = .number (i : Rat) ∧ -(2 ^ 7) ≤ i ∧ i < 2 ^ 7
  | .eSShort, v => ∃ i : Int, v = .number (i : Rat) ∧ -(2 ^ 15) ≤ i ∧ i < 2 ^ 15
  | .eSLong, v => ∃ i : Int, v = .number (i : Rat) ∧ -(2 ^ 31) ≤ i ∧ i < 2 ^ 31
  | .eSInt, v => ∃ i : Int, v = .number (i : Rat) ∧ -(2 ^ 31) ≤ i ∧ i < 2 ^ 31
  | .eUChar, v => ∃ i : Int, v = .number (i : Rat) ∧ 0 ≤ i ∧ i < 2 ^ 8
  | .eUShort, v => ∃ i : Int, v = .number (i : Rat) ∧ 0 ≤ i ∧ i < 2 ^ 16
  | .eULong, v => ∃ i : Int, v = .number (i : Rat) ∧ 0 ≤ i ∧ i < 2 ^ 32
  | .eUInt, v => ∃ i : Int, v = .number (i : Rat) ∧ 0 ≤ i ∧ i < 2 ^ 32
  | .eString, v => ∃ s, v = .str s
  | .eBoolean, v => ∃ b, v = .boolean b
  | .eFloat, v => ∃ q, v = .number q ∧ conv q = q
  | .eDouble, v => ∃ q, v = .number q

end Peer

/-- Reference-count operation performed by `luaT_boxed_set_ref`. -/
inductive RCOp where
  | addRef (p : Nat)
  | release (p : Nat)
  deriving DecidableEq

/-- `luaT_boxed_set_ref` (Templates.h lines 137..147) on a boxed field
holding `targetCell` (`Option.none` = null): `AddRef` the non-null incoming
value, then, when target checking is on, `Release` the non-null previous
value, then store the incoming pointer.  Returns the new cell and the
reference-count operations in program order. -/
def luaT_boxed_set_ref (targetCell : Option Nat) (value : Option Nat)
    (bCheckTarget : Bool) : Option Nat × List RCOp :=
  let incOps := match value with
    | some p => [RCOp.addRef p]
    | Option.none => []
  let decOps :=
    if bCheckTarget then
      match targetCell with
      | some q => [RCOp.release q]
      | Option.none => []
    else []
  (value, incOps ++ decOps)

/-- Effect of one reference-count operation on the per-object counts. -/
def applyOp (counts : Nat → Nat) : RCOp → Nat → Nat
  | .addRef p => fun x => if x = p then counts x + 1 else counts x
  | .release p => fun x => if x = p then counts x - 1 else counts x

/-- Effect of a sequence of reference-count operations. -/
def applyOps (counts : Nat → Nat) (ops : List RCOp) : Nat → Nat :=
  ops.foldl applyOp counts

/-- Objects destroyed by a sequence of operations: a `Release` that takes a
count from 1 to 0 frees its object. -/
def freedBy : (Nat → Nat) → List RCOp → List Nat
  | _, [] => []
  | c, .addRef p :: rest => freedBy (applyOp c (.addRef p)) rest
  | c, .release p :: rest =>
      (if c p = 1 then [p] else []) ++ freedBy (applyOp c (.release p)) rest

/-- The recorded error of a reader result, if it ran to a state. -/
def RRes.errOf : RRes → Option String
  | .done _ st => st.err
  | _ => Option.none

/-- The final stack of a reader result, if it ran to a state. -/
def RRes.stackOf : RRes → Option (List LuaValue)
  | .done _ st => some st.stack
  | _ => Option.none

/-- The unconsumed varargs of a reader result, if it ran to a state. -/
def RRes.argsOf : RRes → Option (List NativeArg)
  | .done _ st => some st.args
  | _ => Option.none

/-- Empty global namespace used by concrete evaluations. -/
def nilGlobals : String → LuaValue := fun _ => .nil

/-- Empty pseudo-index environment used by concrete evaluations. -/
def nilPseudo : Int → LuaValue := fun _ => .nil

/-- A target whose results would make an invocation observable. -/
def markerTarget : List LuaValue → PCallStatus := fun _ => .success [.number 99]

/-- Balanced table literal whose keyed pair has a nested table value:
`{Ks{i}s}` with arguments `("a", 7, "b")` on an empty stack. -/
def kTableValueState : RState :=
  mkReader "{Ks{i}s}".toList [.str "a", .int 7, .str "b"] [] 0 nilGlobals nilPseudo

/-- Suppressed element containing relative indices: `C{rr}` with a false
condition and index arguments `-1, -1` on an empty stack. -/
def suppressedRelState : RState :=
  mkReader "C{rr}".toList [.boolean false, .int (-1), .int (-1)] [] 0 nilGlobals nilPseudo

/-- Suppressed element containing a doubly nested table: `C{{i}s}` with a
false condition and arguments `(5, "x")` on an empty stack. -/
def suppressedNestedState : RState :=
  mkReader "C{{i}s}".toList [.boolean false, .int 5, .str "x"] [] 0 nilGlobals nilPseudo

/-- Uninitialised native memory used by concrete evaluations. -/
def undefMem : Peer.Mem := fun _ => .uninit

/-- Identity double-to-float conversion, for values that are exactly
representable. -/
def idConv : Rat → Rat := fun q => q

/-- A getter override returning a recognisable constant. -/
def constGetter : Peer.GetterFn := fun _ _ _ m => (m, .number 42)

/-- Reference counts that are all 1, for concrete evaluations. -/
def oneCounts : Nat → Nat := fun _ => 1

/-- A reader operation that, while suppression (`mShouldSkip`) is active,
leaves the Lua stack untouched and keeps suppression active in every state
it returns. -/
def SkipPure (f : RState → RRes) : Prop :=
  ∀ st b st', st.shouldSkip = true → f st = .done b st' →
    st'.stack = st.stack ∧ st'.shouldSkip = true

/-- A reader operation whose token and vararg consumption, success flag
and recorded error do not depend on the suppression flag; under
suppression it pushes nothing. -/
def FlatAgree (f : RState → RRes) : Prop :=
  ∀ st : RState, ∃ b s1 s2,
    f { st with shouldSkip := false } = .done b s1 ∧
    f { st with shouldSkip := true } = .done b s2 ∧
    s1.toks = s2.toks ∧ s1.args = s2.args ∧ s1.err = s2.err ∧
    s2.stack = st.stack

/-- A suppressed reader state over `i` with one vararg, for witnesses. -/
def wSupp : RState :=
  { mkReader ['i'] [NativeArg.int 5] [] 0 nilGlobals nilPseudo with shouldSkip := true }

/-- A reader state over `C i` awaiting its arguments, for witnesses. -/
def wCond : RState :=
  mkReader ['C', 'i'] [] [] 0 nilGlobals nilPseudo

/-!  Theorems.  Each claim of the specification is settled by exactly one
theorem below; helper lemmas carry their own names. -/

/-- Helper: `memWrite` reads back at the written address. -/
theorem memWrite_self (m : Peer.Mem) (a : Nat) (c : Peer.Cell) :
    Peer.memWrite m a c a = c := by
  simp [Peer.memWrite]

/-- Helper: `memWrite` leaves other addresses alone. -/
theorem memWrite_other (m : Peer.Mem) (a x : Nat) (c : Peer.Cell) (h : x ≠ a) :
    Peer.memWrite m a c x = m x := by
  simp [Peer.memWrite, h]

/-- Helper: C truncation is exact on integral numbers. -/
theorem cTrunc_intCast (i : Int) : Peer.cTrunc ((i : Rat)) = i := by
  simp [Peer.cTrunc]

/-- Helper: the two's-complement wrap is the identity on in-range signed
values. -/
theorem wrapS_eq_self (w : Nat) (i : Int) (hw : 1 ≤ w)
    (h1 : -(2 ^ (w - 1)) ≤ i) (h2 : i < 2 ^ (w - 1)) : Peer.wrapS w i = i := by
  have hpow : (2 : Int) ^ w = 2 ^ (w - 1) * 2 := by
    rw [← pow_succ]
    congr 1
    omega
  have hmod : (i + 2 ^ (w - 1)) % 2 ^ w = i + 2 ^ (w - 1) := by
    apply Int.emod_eq_of_lt <;> omega
  simp only [Peer.wrapS, hmod]
  omega

/-- Helper: the unsigned wrap is the identity on in-range values. -/
theorem wrapU_eq_self (w : Nat) (i : Int) (h1 : 0 ≤ i) (h2 : i < 2 ^ w) :
    (Peer.wrapU w i : Int) = i := by
  have hmod : i % 2 ^ w = i := Int.emod_eq_of_lt h1 h2
  simp only [Peer.wrapU, hmod]
  exact Int.toNat_of_nonneg h1

/-- C9: with target checking enabled, `luaT_boxed_set_ref` stores the new
pointer; a non-null new value contributes exactly one `AddRef` and a
non-null previous value exactly one `Release`, in that order (increment
before decrement); assigning null performs only the decrement; net counts
change by +1 for the new and by −1 for the distinct previous value, whose
object is freed exactly when its count was 1. -/
theorem luaT_boxed_set_ref_refcount_discipline (cell value : Option Nat)
    (counts : Nat → Nat) :
    (luaT_boxed_set_ref cell value true).1 = value ∧
    (∀ v, value = some v →
      (luaT_boxed_set_ref cell value true).2 =
        RCOp.addRef v :: (match cell with
          | some o => [RCOp.release o]
          | Option.none => [])) ∧
    (value = Option.none →
      (luaT_boxed_set_ref cell value true).2 =
        (match cell with
          | some o => [RCOp.release o]
          | Option.none => [])) ∧
    (∀ v o, value = some v → cell = some o → v ≠ o →
      applyOps counts (luaT_boxed_set_ref cell value true).2 v = counts v + 1 ∧
      applyOps counts (luaT_boxed_set_ref cell value true).2 o = counts o - 1 ∧
      freedBy counts (luaT_boxed_set_ref cell value true).2 =
        (if counts o = 1 then [o] else [])) ∧
    (∀ v, value = some v → cell = Option.none →
      applyOps counts (luaT_boxed_set_ref cell value true).2 v = counts v + 1) ∧
    (∀ o, value = Option.none → cell = some o →
      applyOps counts (luaT_boxed_set_ref cell value true).2 o = counts o - 1 ∧
      ∀ x, x ≠ o → applyOps counts (luaT_boxed_set_ref cell value true).2 x = counts x) := by
  refine ⟨rfl, ?_, ?_, ?_, ?_, ?_⟩
  · rintro v rfl
    cases cell <;> rfl
  · rintro rfl
    cases cell <;> rfl
  · rintro v o rfl rfl hne
    refine ⟨?_, ?_, ?_⟩
    · simp [luaT_boxed_set_ref, applyOps, applyOp, hne, Ne.symm hne]
    · simp [luaT_boxed_set_ref, applyOps, applyOp, hne, Ne.symm hne]
    · simp [luaT_boxed_set_ref, freedBy, applyOp, Ne.symm hne]
  · rintro v rfl rfl
    simp [luaT_boxed_set_ref, applyOps, applyOp]
  · rintro o rfl rfl
    constructor
    · simp [luaT_boxed_set_ref, applyOps, applyOp]
    · intro x hx
      simp [luaT_boxed_set_ref, applyOps, applyOp, hx]

/-- Witness for C9 at the concrete assignment of object 5 over object 3
with all counts 1. -/
theorem luaT_boxed_set_ref_refcount_discipline_witness :
    applyOps oneCounts (luaT_boxed_set_ref (some 3) (some 5) true).2 5 = oneCounts 5 + 1 ∧
    applyOps oneCounts (luaT_boxed_set_ref (some 3) (some 5) true).2 3 = oneCounts 3 - 1 ∧
    freedBy oneCounts (luaT_boxed_set_ref (some 3) (some 5) true).2 =
      (if oneCounts 3 = 1 then [3] else []) :=
  (luaT_boxed_set_ref_refcount_discipline (some 3) (some 5) oneCounts).2.2.2.1 5 3 rfl rfl
    (by decide)

/-- C10: a property write whose name has neither a setter override nor a
descriptor entry is silently dropped: `NewIndex` succeeds with zero
results and native memory is untouched. -/
theorem NewIndex_unhandled_write_dropped (bBoxed : Bool)
    (descr : List (LuaValue × Peer.Desc)) (setters : List (LuaValue × Peer.SetterFn))
    (conv : Rat → Rat) (mem : Peer.Mem) (object key value data : LuaValue)
    (hres : Peer.Lookup bBoxed mem object = .ok data)
    (hset : Peer.lookupKV setters key = Option.none)
    (hdesc : Peer.lookupKV descr key = Option.none) :
    Peer.NewIndex bBoxed descr setters conv mem object key value = .ok mem := by
  unfold Peer.NewIndex
  rw [hres, hset, hdesc]

/-- Witness for C10 at a concrete inline object and empty tables. -/
theorem NewIndex_unhandled_write_dropped_witness :
    Peer.NewIndex false [] [] idConv undefMem (.lightuserdata 1) (.str "k") (.number 7) =
      .ok undefMem :=
  NewIndex_unhandled_write_dropped false [] [] idConv undefMem (.lightuserdata 1)
    (.str "k") (.number 7) (.lightuserdata 1) rfl rfl rfl

/-- C8: a property read with a getter override returns exactly the
getter's single result of `getter(object, key, data)`, for every
descriptor table alike (the descriptor table is never consulted); with no
getter and no descriptor entry the closure yields nil. -/
theorem Index_getter_priority_and_missing_nil (bBoxed : Bool)
    (descr : List (LuaValue × Peer.Desc)) (getters : List (LuaValue × Peer.GetterFn))
    (mem : Peer.Mem) (object key data : LuaValue) :
    (∀ g, Peer.Lookup bBoxed mem object = .ok data →
      Peer.lookupKV getters key = some g →
      Peer.Index bBoxed descr getters mem object key = .ok (g object key data mem)) ∧
    (Peer.Lookup bBoxed mem object = .ok data →
      Peer.lookupKV getters key = Option.none →
      Peer.lookupKV descr key = Option.none →
      Peer.Index bBoxed descr getters mem object key = .ok (mem, .nil)) := by
  constructor
  · intro g hres hget
    unfold Peer.Index
    rw [hres, hget]
  · intro hres hget hdesc
    unfold Peer.Index
    rw [hres, hget, hdesc]

/-- Witness for C8: a constant getter on a boxed object, and a missing
name on the same object. -/
theorem Index_getter_priority_and_missing_nil_witness :
    Peer.Index true [(.str "f", ⟨0, .eSInt⟩)] [(.str "x", constGetter)]
      (Peer.memWrite undefMem 9 (.cptr 100)) (.lightuserdata 9) (.str "x") =
      .ok (constGetter (.lightuserdata 9) (.str "x") (.lightuserdata 100)
        (Peer.memWrite undefMem 9 (.cptr 100))) ∧
    Peer.Index true [(.str "f", ⟨0, .eSInt⟩)] [(.str "x", constGetter)]
      (Peer.memWrite undefMem 9 (.cptr 100)) (.lightuserdata 9) (.str "y") =
      .ok (Peer.memWrite undefMem 9 (.cptr 100), .nil) :=
  ⟨(Index_getter_priority_and_missing_nil true [(.str "f", ⟨0, .eSInt⟩)]
      [(.str "x", constGetter)] (Peer.memWrite undefMem 9 (.cptr 100))
      (.lightuserdata 9) (.str "x") (.lightuserdata 100)).1 constGetter rfl rfl,
   (Index_getter_priority_and_missing_nil true [(.str "f", ⟨0, .eSInt⟩)]
      [(.str "x", constGetter)] (Peer.memWrite undefMem 9 (.cptr 100))
      (.lightuserdata 9) (.str "y") (.lightuserdata 100)).2 rfl rfl rfl⟩

/-- Helper: for a value of a member's native type, the typed store
succeeds and the typed load of the stored cell returns the value. -/
theorem writeCell_readCell (conv : Rat → Rat) (t : Peer.MTy) (v : LuaValue)
    (h : Peer.TypedFor conv t v) :
    ∃ c, Peer.writeCell conv t v = .ok c ∧ Peer.readCell t c = v := by
  cases t
  case ePointer =>
    obtain ⟨p, rfl⟩ := h
    exact ⟨.cptr p, rfl, rfl⟩
  case eSChar =>
    obtain ⟨i, rfl, h1, h2⟩ := h
    refine ⟨.cschar i, ?_, rfl⟩
    simp [Peer.writeCell, Peer.checkint, Except.map, cTrunc_intCast,
      wrapS_eq_self 8 i (by norm_num) h1 h2]
  case eSShort =>
    obtain ⟨i, rfl, h1, h2⟩ := h
    refine ⟨.csshort i, ?_, rfl⟩
    simp [Peer.writeCell, Peer.checkint, Except.map, cTrunc_intCast,
      wrapS_eq_self 16 i (by norm_num) h1 h2]
  case eSLong =>
    obtain ⟨i, rfl, h1, h2⟩ := h
    refine ⟨.cslong i, ?_, rfl⟩
    simp [Peer.writeCell, Peer.checkint, Except.map, cTrunc_intCast,
      wrapS_eq_self 32 i (by norm_num) h1 h2]
  case eSInt =>
    obtain ⟨i, rfl, h1, h2⟩ := h
    refine ⟨.csint i, ?_, rfl⟩
    simp [Peer.writeCell, Peer.checkint, Except.map, cTrunc_intCast,
      wrapS_eq_self 32 i (by norm_num) h1 h2]
  case eUChar =>
    obtain ⟨i, rfl, h1, h2⟩ := h
    refine ⟨.cuchar (Peer.wrapU 8 i), ?_, ?_⟩
    · simp [Peer.writeCell, Peer.checkint, Except.map, cTrunc_intCast]
    · simp only [Peer.readCell, LuaValue.number.injEq]
      exact_mod_cast congrArg (fun z : Int => (z : Rat)) (wrapU_eq_self 8 i h1 h2)
  case eUShort =>
    obtain ⟨i, rfl, h1, h2⟩ := h
    refine ⟨.cushort (Peer.wrapU 16 i), ?_, ?_⟩
    · simp [Peer.writeCell, Peer.checkint, Except.map, cTrunc_intCast]
    · simp only [Peer.readCell, LuaValue.number.injEq]
      exact_mod_cast congrArg (fun z : Int => (z : Rat)) (wrapU_eq_self 16 i h1 h2)
  case eULong =>
    obtain ⟨i, rfl, h1, h2⟩ := h
    refine ⟨.culong (Peer.wrapU 32 i), ?_, ?_⟩
    · simp [Peer.writeCell, Peer.checkint, Except.map, cTrunc_intCast]
    · simp only [Peer.readCell, LuaValue.number.injEq]
      exact_mod_cast congrArg (fun z : Int => (z : Rat)) (wrapU_eq_self 32 i h1 h2)
  case eUInt =>
    obtain ⟨i, rfl, h1, h2⟩ := h
    refine ⟨.cuint (Peer.wrapU 32 i), ?_, ?_⟩
    · simp [Peer.writeCell, Peer.checkint, Except.map, cTrunc_intCast]
    · simp only [Peer.readCell, LuaValue.number.injEq]
      exact_mod_cast congrArg (fun z : Int => (z : Rat)) (wrapU_eq_self 32 i h1 h2)
  case eString =>
    obtain ⟨s, rfl⟩ := h
    exact ⟨.cstr s, rfl, rfl⟩
  case eBoolean =>
    obtain ⟨b, rfl⟩ := h
    exact ⟨.cbool b, rfl, rfl⟩
  case eFloat =>
    obtain ⟨q, rfl, hconv⟩ := h
    exact ⟨.cfloat (conv q), rfl, by simp [Peer.readCell, hconv]⟩
  case eDouble =>
    obtain ⟨q, rfl⟩ := h
    exact ⟨.cdouble q, rfl, rfl⟩

/-- C7: for every member type tag and both addressing modes, writing a
value of the member's type through the `__newindex` closure and then
reading the same member back through the `__index` closure yields the
original value.  `a` is the resolved member base address and the last
hypothesis rules out a boxed struct field aliasing the box pointer
itself. -/
theorem roundTrip_typed_value_identity (bBoxed : Bool)
    (descr : List (LuaValue × Peer.Desc)) (getters : List (LuaValue × Peer.GetterFn))
    (setters : List (LuaValue × Peer.SetterFn)) (conv : Rat → Rat) (mem : Peer.Mem)
    (object key v : LuaValue) (a : Nat) (d : Peer.Desc)
    (hget : Peer.lookupKV getters key = Option.none)
    (hset : Peer.lookupKV setters key = Option.none)
    (hdesc : Peer.lookupKV descr key = some d)
    (htyped : Peer.TypedFor conv d.ty v)
    (hres : Peer.Lookup bBoxed mem object = .ok (.lightuserdata a))
    (halias : bBoxed = true → ∀ h, object = .lightuserdata h → a + d.offset ≠ h) :
    Peer.roundTrip bBoxed descr getters setters conv mem object key v = .ok v := by
  obtain ⟨c, hw, hr⟩ := writeCell_readCell conv d.ty v htyped
  cases bBoxed with
  | false =>
    have hobj : object = .lightuserdata a := by
      simpa [Peer.Lookup] using hres
    subst hobj
    unfold Peer.roundTrip Peer.NewIndex Peer.Index Peer.Lookup
    simp [hget, hset, hdesc, hw, hr, memWrite_self]
  | true =>
    have hres' := hres
    unfold Peer.Lookup at hres'
    simp only [if_pos rfl] at hres'
    cases object with
    | lightuserdata h0 =>
        have hne : a + d.offset ≠ h0 := halias rfl h0 rfl
        have hmem : mem h0 = .cptr a := by
          generalize hq : mem h0 = mb at hres'
          cases mb <;> simp_all
        unfold Peer.roundTrip Peer.NewIndex Peer.Index Peer.Lookup
        simp [hget, hset, hdesc, hw, hr, hmem, memWrite_self,
          memWrite_other mem (a + d.offset) h0 c (Ne.symm hne)]
    | nil => simp at hres'
    | boolean b => simp at hres'
    | number q => simp at hres'
    | str s => simp at hres'
    | cfunction id => simp at hres'
    | table es => simp at hres'

/-- Witness for C7: a signed-char member at offset 4 of an inline object,
written with −7 and read back. -/
theorem roundTrip_typed_value_identity_witness :
    Peer.roundTrip false [(.str "m", ⟨4, .eSChar⟩)] [] [] idConv undefMem
      (.lightuserdata 100) (.str "m") (.number (-7)) = .ok (.number (-7)) :=
  roundTrip_typed_value_identity false [(.str "m", ⟨4, .eSChar⟩)] [] [] idConv undefMem
    (.lightuserdata 100) (.str "m") (.number (-7)) 100 ⟨4, .eSChar⟩ rfl rfl rfl
    ⟨-7, by norm_num, by decide, by decide⟩ rfl (by intro h; cases h)

/-- Helper: `lua_settop` always leaves exactly the requested height. -/
theorem settopL_length (n : Nat) (s : List LuaValue) : (settopL n s).length = n := by
  unfold settopL
  split <;> simp <;> omega

/-- Helper: length of the adjusted result list. -/
theorem adjustRes_length (retc : Int) (rs : List LuaValue) :
    (adjustRes retc rs).length = if retc < 0 then rs.length else retc.toNat := by
  unfold adjustRes
  split
  · rfl
  · split <;> simp <;> omega

/-- Helper: every `thrown` outcome of the protected invocation half
carries a stack of exactly the pre-call height `B`, where
`top = count0 + B + 1` was the entry height. -/
theorem CallCoreFinish_thrown_height (retc : Int) (count0 : Nat) (B : Nat)
    (target : List LuaValue → PCallStatus) (st : RState) (m : String)
    (s : List LuaValue) (i : Bool)
    (h : CallCoreFinish retc count0 ((count0 : Int) + B + 1) target true st =
      .thrown m s i) :
    s.length = B := by
  unfold CallCoreFinish at h
  simp only [if_pos] at h
  have hafter :
      ((st.stack.length : Int) - ((count0 : Int) + ((st.stack.length : Int) -
        ((count0 : Int) + B + 1))) - 1).toNat = B := by omega
  split at h
  · rw [CCOut.thrown.injEq] at h
    rw [← h.2.1, settopL_length, hafter]
  · split at h
    · exact absurd h (by simp)
    · split at h
      · exact absurd h (by simp)
      · rw [CCOut.thrown.injEq] at h
        rw [← h.2.1, settopL_length, hafter]

/-- Helper: every `ok` outcome of the protected invocation half returns a
nonnegative result count `n`, leaves the stack at pre-call height `B` plus
`n`, and produces exactly `retc` results when a fixed count was
requested. -/
theorem CallCoreFinish_ok_height (retc : Int) (count0 : Nat) (B : Nat)
    (target : List LuaValue → PCallStatus) (st : RState) (n : Int)
    (s : List LuaValue) (i : Bool)
    (h : CallCoreFinish retc count0 ((count0 : Int) + B + 1) target true st =
      .ok n s i) :
    0 ≤ n ∧ (s.length : Int) = (B : Int) + n ∧ (0 ≤ retc → n = retc) := by
  unfold CallCoreFinish at h
  simp only [if_pos] at h
  split at h
  · exact absurd h (by simp)
  · split at h
    · exact absurd h (by simp)
    · rename_i herr hc
      split at h
      · rename_i rs hcall
        rw [CCOut.ok.injEq] at h
        obtain ⟨hn, hs, _⟩ := h
        subst hs
        have hA := adjustRes_length retc rs
        simp only [List.length_append, List.length_drop] at hn ⊢
        refine ⟨by omega, by omega, ?_⟩
        intro hretc
        rw [if_neg (by omega)] at hA
        omega
      · exact absurd h (by simp)

/-- C1: a protected `CallCore` that fails — through a recorded parse error
or through the target failing — throws a string after truncating the
stack to exactly the pre-call height `rest.length` (the height below the
callable and its arguments); one that succeeds returns a result count `n`
with the stack at pre-call height plus `n`, and `n = retc` whenever a
fixed result count was requested. -/
theorem CallCore_protected_stack_discipline (fuel : Nat) (rest : List LuaValue)
    (func : LuaValue) (pre : List LuaValue) (retc : Int) (toks : List Char)
    (args : List NativeArg) (globals : String → LuaValue) (pseudo : Int → LuaValue)
    (target : List LuaValue → PCallStatus) :
    (∀ m s i,
      CallCore fuel rest func pre retc toks args globals pseudo target true =
        .thrown m s i → s.length = rest.length) ∧
    (∀ n s i,
      CallCore fuel rest func pre retc toks args globals pseudo target true =
        .ok n s i →
      0 ≤ n ∧ (s.length : Int) = (rest.length : Int) + n ∧ (0 ≤ retc → n = retc)) := by
  have htop : ((pre ++ func :: rest).length : Int) =
      (pre.length : Int) + rest.length + 1 := by
    simp
    omega
  constructor
  · intro m s i h
    unfold CallCore at h
    split at h
    · exact absurd h (by simp)
    · exact absurd h (by simp)
    · rw [htop] at h
      exact CallCoreFinish_thrown_height retc pre.length rest.length target _ m s i h
  · intro n s i h
    unfold CallCore at h
    split at h
    · exact absurd h (by simp)
    · exact absurd h (by simp)
    · rw [htop] at h
      exact CallCoreFinish_ok_height retc pre.length rest.length target _ n s i h

/-- Witness for C1: a protected call of format `"i"` over base stack
`[nil]` whose target returns one number. -/
theorem CallCore_protected_stack_discipline_witness :
    CallCore 9 [LuaValue.nil] (.cfunction 0) [] (-1) ['i'] [.int 5] nilGlobals
      nilPseudo markerTarget true = .ok 1 [.number 99, .nil] true ∧
    (0 : Int) ≤ 1 ∧ (([LuaValue.number 99, LuaValue.nil].length : Nat) : Int) =
      (([LuaValue.nil].length : Nat) : Int) + 1 := by
  have h : CallCore 9 [LuaValue.nil] (.cfunction 0) [] (-1) ['i'] [.int 5] nilGlobals
      nilPseudo markerTarget true = .ok 1 [.number 99, .nil] true := rfl
  have h2 := (CallCore_protected_stack_discipline 9 [LuaValue.nil] (.cfunction 0) []
    (-1) ['i'] [.int 5] nilGlobals nilPseudo markerTarget).2 1 [.number 99, .nil] true h
  exact ⟨h, h2.1, h2.2.1⟩

/-- C2 counterexample: in protected mode, a parse error (here the
unbalanced format `"}"`) makes `CallCore` skip the invocation entirely —
the `||` in Support.cpp line 307 short-circuits — so the target, whose
results would have been visible, is never invoked (`invoked = false`);
the recorded error is thrown after restoring the stack. -/
theorem CallCore_parse_error_skips_invocation_cex :
    CallCore 4 [] (.cfunction 0) [] (-1) ['}'] [] nilGlobals nilPseudo markerTarget
      true = .thrown "Unopened table" [] false := by
  rfl

/-- C2 (amended): in protected mode, when the format-spec parse records an
error, the invocation of the target is skipped, the stack is restored to
the pre-call height, and the recorded error is thrown. -/
theorem CallCore_parse_error_skips_invocation (fuel : Nat) (rest : List LuaValue)
    (func : LuaValue) (pre : List LuaValue) (retc : Int) (toks : List Char)
    (args : List NativeArg) (globals : String → LuaValue) (pseudo : Int → LuaValue)
    (target : List LuaValue → PCallStatus) (st : RState) (e : String)
    (hne : toks ≠ [])
    (hrun : readLoop fuel (mkReader toks args (pre ++ func :: rest) pre.length
      globals pseudo) = .done false st)
    (herr : st.err = some e) :
    ∃ s, CallCore fuel rest func pre retc toks args globals pseudo target true =
      .thrown e s false ∧ s.length = rest.length := by
  have hmain : CallCore fuel rest func pre retc toks args globals pseudo target true =
      CallCoreFinish retc pre.length ((pre ++ func :: rest).length : Int) target true st := by
    unfold CallCore
    rw [if_neg (by simpa using hne), hrun]
  rw [hmain]
  unfold CallCoreFinish
  rw [herr]
  simp only [if_pos]
  refine ⟨_, rfl, ?_⟩
  rw [settopL_length]
  have hL : (pre ++ func :: rest).length = pre.length + (rest.length + 1) := by
    simp
  omega

/-- Witness for C2's amended theorem at the concrete format `"}"`. -/
theorem CallCore_parse_error_skips_invocation_witness :
    ∃ s, CallCore 4 [] (LuaValue.cfunction 0) [] (-1) ['}'] [] nilGlobals nilPseudo
      markerTarget true = .thrown "Unopened table" s false ∧ s.length = 0 :=
  CallCore_parse_error_skips_invocation 4 [] (.cfunction 0) [] (-1) ['}'] []
    nilGlobals nilPseudo markerTarget
    { mkReader ['}'] [] [.cfunction 0] 0 nilGlobals nilPseudo with
        err := some "Unopened table" }
    "Unopened table" (by simp) rfl rfl

/-- C3 (code-bug evaluation): parsing the balanced table literal
`{Ks{i}s}` — a keyed pair whose value is a nested table, followed by a
positional string — exercises the early `break` of `Reader::_table`
line 150: after `_K` returns, `*mParams` is the *inner* closing brace left
by the value element, the loop mistakes it for the outer table's close,
the trailing `s` element is pushed outside the table, and the real outer
`}` then records "Unopened table".  Net stack growth is 2, not 1, and the
pushed string never enters the table. -/
theorem table_literal_inner_brace_break_eval :
    (readLoop 20 kTableValueState).errOf = some "Unopened table" ∧
    (readLoop 20 kTableValueState).stackOf =
      some [.str "b",
        .table (.cons (.str "a") (.table (.cons (.number 1) (.number 7) .none)) .none)] := by
  refine ⟨?_, ?_⟩ <;> decide

/-- C4 counterexample: a `C` directive with a false condition does not
always consume the suppressed element's varargs nor always push nothing.
With `C{rr}` over an empty stack and index arguments `-1, -1`, the first
`r` resolves against the smaller suppressed-time top, records "Bad index",
and the second `r`'s vararg is never consumed.  With `C{{i}s}`, the table
nested inside the suppressed table ends the suppressed literal early, so
the trailing `s` — part of the suppressed element — is read *unsuppressed*
and its string is pushed, after which the leftover `}` records
"Unopened table". -/
theorem conditional_false_consumption_cex :
    ((readLoop 20 suppressedRelState).argsOf = some [.int (-1)] ∧
      (readLoop 20 suppressedRelState).errOf = some "Bad index") ∧
    ((readLoop 20 suppressedNestedState).stackOf = some [.str "x"] ∧
      (readLoop 20 suppressedNestedState).errOf = some "Unopened table") := by
  refine ⟨⟨?_, ?_⟩, ⟨?_, ?_⟩⟩ <;> decide

/-- Helper: `ReadElement` with a non-space current character skips no
spaces and goes straight to the dispatch switch. -/
theorem elemBody_nonspace (p : ReadFns) (st : RState) (hd : Char) (tl : List Char)
    (htoks : st.toks = hd :: tl) (hns : isSpaceC hd = false) :
    elemBody p st = elemCore p st := by
  unfold elemBody
  have hdw : st.toks.dropWhile isSpaceC = st.toks := by
    rw [htoks]
    simp [List.dropWhile_cons, hns]
  rw [hdw]

/-- Helper: one fuel step of the reader unfolds to the element body. -/
theorem readElement_succ (fuel : Nat) (st : RState) :
    readElement (fuel + 1) st = elemBody (fns fuel) st := rfl

/-- Helper: dispatch of the `a` / `r` directives. -/
theorem elemCore_ar (p : ReadFns) (st : RState) (c : Char) (tl : List Char)
    (htoks : st.toks = c :: tl) (hc : c = 'a' ∨ c = 'r') :
    elemCore p st = readA c st := by
  rcases hc with rfl | rfl <;> (unfold elemCore; rw [htoks]; rfl)

/-- Helper: dispatch of the `K` directive at positive table height. -/
theorem elemCore_K (p : ReadFns) (st : RState) (tl : List Char)
    (htoks : st.toks = 'K' :: tl) (hh : ¬st.height = 0) :
    elemCore p st = keyBody p st := by
  have h1 : elemCore p st
      = if st.height = 0 then st.fail "Key outside table" else keyBody p st := by
    unfold elemCore
    rw [htoks]
    rfl
  rw [h1, if_neg hh]

/-- C6: a negative non-pseudo index argument of an `a` directive is
resolved by adding the reader's fixed `mTop` (recorded at reader creation
as entry height minus pre-pushed count, see the last conjunct), while an
`r` directive adds the current top plus one; a resolved index outside
`[1, current top]` records a "Bad index" error with nothing pushed, and an
in-range one pushes a copy of that slot. -/
theorem stack_index_directive_resolution (fuel : Nat) (st : RState) (c : Char)
    (tl : List Char) (j i : Int) (as : List NativeArg)
    (htoks : st.toks = c :: tl) (hc : c = 'a' ∨ c = 'r')
    (hargs : st.args = .int j :: as) (hneg : j < 0) (hps : LUA_REGISTRYINDEX < j)
    (herr : st.err = Option.none)
    (hi : i = j + (if c = 'a' then st.mTop else (st.stack.length : Int) + 1)) :
    ((i ≤ 0 ∨ (st.stack.length : Int) < i) →
      ∃ st', readElement (fuel + 1) st = .done false st' ∧
        st'.err = some "Bad index" ∧ st'.stack = st.stack ∧ st'.args = as) ∧
    (st.inKey = false → st.shouldSkip = false →
      0 < i → i ≤ (st.stack.length : Int) →
      readElement (fuel + 1) st = .done true
        { st with args := as, stack := stackSlot st.stack i :: st.stack }) ∧
    (∀ (toks' : List Char) (args' : List NativeArg) (stack0 : List LuaValue)
        (count : Nat) (g : String → LuaValue) (ps : Int → LuaValue),
      (mkReader toks' args' stack0 count g ps).mTop = (stack0.length : Int) - count) := by
  have hns : isSpaceC c = false := by
    rcases hc with rfl | rfl <;> rfl
  have hnext : st.next = (.int j, { st with args := as }) := by
    unfold RState.next
    rw [hargs]
  have hdisp : readElement (fuel + 1) st = readA c st := by
    rw [readElement_succ, elemBody_nonspace (fns fuel) st c tl htoks hns,
      elemCore_ar (fns fuel) st c tl htoks hc]
  have hbody : readA c st =
      (if i ≤ 0 ∨ (st.stack.length : Int) < i then
        RState.fail { st with args := as } "Bad index"
      else if st.inKey ∧ stackSlot st.stack i = .nil then
        RState.fail { st with args := as } "Null key"
      else .done true (RState.push { st with args := as } (stackSlot st.stack i))) := by
    unfold readA
    rw [hnext]
    simp only [NativeArg.asInt]
    rw [if_neg (by simp only [upvalueindex256, LUA_REGISTRYINDEX] at hps ⊢; omega),
      if_pos hneg]
    rw [← hi]
  refine ⟨?_, ?_, ?_⟩
  · intro hbad
    refine ⟨{ st with args := as, err := some "Bad index" }, ?_, rfl, rfl, rfl⟩
    rw [hdisp, hbody, if_pos hbad]
    simp [RState.fail, herr]
  · intro hkey hskip h1 h2
    rw [hdisp, hbody, if_neg (by omega), if_neg (by simp [hkey])]
    simp [RState.push, hskip]
  · intro toks' args' stack0 count g ps
    rfl

/-- Witness for C6 at the concrete directive `r` with index `-1` over a
one-element stack. -/
theorem stack_index_directive_resolution_witness :
    (mkReader ['r'] [.int (-1)] [.number 3] 0 nilGlobals nilPseudo).inKey = false ∧
    readElement 5 (mkReader ['r'] [.int (-1)] [.number 3] 0 nilGlobals nilPseudo) =
      .done true { mkReader ['r'] [.int (-1)] [.number 3] 0 nilGlobals nilPseudo with
        args := [], stack := [.number 3, .number 3] } := by
  have h := (stack_index_directive_resolution 4
    (mkReader ['r'] [.int (-1)] [.number 3] 0 nilGlobals nilPseudo) 'r' [] (-1) 1 []
    rfl (Or.inr rfl) rfl (by decide) (by decide) rfl (by decide)).2.1 rfl rfl
    (by decide) (by decide)
  exact ⟨rfl, by rw [h]; rfl⟩

/-- C5: a `K` directive whose key element evaluates to nil — through the
`0` directive or through an `a`/`r` directive naming a nil stack slot —
records a "Null key" error, reading stops, and the stack (in particular
the enclosing table on it) is left unmodified. -/
theorem K_nil_key_rejected (fuel : Nat) (st : RState) (k : Char) (tl : List Char)
    (herr : st.err = Option.none) (_hk : st.inKey = false) (_hv : st.inValue = false)
    (hh : ¬st.height = 0) (htoks : st.toks = 'K' :: k :: tl) :
    (k = '0' →
      ∃ st', readElement (fuel + 2) st = .done false st' ∧
        st'.err = some "Null key" ∧ st'.stack = st.stack) ∧
    (∀ (j : Int) (tla : List NativeArg), (k = 'a' ∨ k = 'r') →
      st.args = .int j :: tla → 1 ≤ j → j ≤ (st.stack.length : Int) →
      stackSlot st.stack j = .nil →
      ∃ st', readElement (fuel + 2) st = .done false st' ∧
        st'.err = some "Null key" ∧ st'.stack = st.stack ∧ st'.args = tla) := by
  have hdispK : readElement (fuel + 2) st = keyBody (fns (fuel + 1)) st := by
    rw [readElement_succ, elemBody_nonspace (fns (fuel + 1)) st 'K' (k :: tl) htoks rfl,
      elemCore_K (fns (fuel + 1)) st (k :: tl) htoks hh]
  have hst1 : ({ st.advance 1 with inKey := true } : RState).toks = k :: tl := by
    simp [RState.advance, htoks]
  constructor
  · rintro rfl
    have hinner : (fns (fuel + 1)).elem { st.advance 1 with inKey := true } =
        .done false { st.advance 1 with inKey := true, err := some "Null key" } := by
      show elemBody (fns fuel) _ = _
      rw [elemBody_nonspace (fns fuel) _ '0' tl hst1 rfl]
      have h1 : ∀ s : RState, s.toks = '0' :: tl → elemCore (fns fuel) s = read0 s := by
        intro s hs
        unfold elemCore
        rw [hs]
        rfl
      rw [h1 _ hst1]
      unfold read0
      rw [if_pos rfl]
      simp [RState.fail, RState.advance, herr]
    refine ⟨{ st.advance 1 with inKey := true, err := some "Null key" }, ?_, rfl, rfl⟩
    rw [hdispK]
    unfold keyBody
    dsimp only
    rw [hinner]
    simp [RState.fail]
  · intro j tla hkar hargs h1 h2 hnil
    have hadv : st.advance 1 = { st with toks := k :: tl } := by
      unfold RState.advance
      rw [htoks]
      rfl
    have hns : isSpaceC k = false := by
      rcases hkar with rfl | rfl <;> rfl
    have hinner : (fns (fuel + 1)).elem { st.advance 1 with inKey := true } =
        .done false { st.advance 1 with inKey := true, args := tla, err := some "Null key" } := by
      rw [hadv]
      show elemBody (fns fuel) _ = _
      rw [elemBody_nonspace (fns fuel) _ k tl rfl hns,
        elemCore_ar (fns fuel) _ k tl rfl hkar]
      unfold readA
      have hnext1 : ({ st with toks := k :: tl, inKey := true } : RState).next =
          (.int j, { st with toks := k :: tl, inKey := true, args := tla }) := by
        unfold RState.next
        dsimp only
        rw [hargs]
      rw [hnext1]
      simp only [NativeArg.asInt]
      rw [if_neg (show ¬(upvalueindex256 ≤ j ∧ j ≤ LUA_REGISTRYINDEX) by
        simp only [upvalueindex256, LUA_REGISTRYINDEX]; omega)]
      rw [if_neg (show ¬j < 0 by omega)]
      rw [if_neg (show ¬(j ≤ 0 ∨ j > (st.stack.length : Int)) by omega)]
      rw [if_pos (show True ∧ stackSlot st.stack j = .nil from ⟨trivial, hnil⟩)]
      simp [RState.fail, herr]
    refine ⟨{ st.advance 1 with inKey := true, args := tla, err := some "Null key" }, ?_, rfl, rfl, rfl⟩
    rw [hdispK]
    unfold keyBody
    dsimp only
    rw [hinner]
    simp [RState.fail]

/-- Helper: the directive handlers that read directly from the va_list are
suppression-pure (`_a`, Support.cpp line 50 guards its push). -/
theorem readA_skipPure (c : Char) : SkipPure (readA c) := by
  intro st b st' hs h
  cases hargs : st.args
  all_goals simp only [readA, RState.next, hargs] at h
  all_goals repeat' split at h
  all_goals try simp only [RState.fail, RState.push, hs] at h
  all_goals rw [RRes.done.injEq] at h
  all_goals obtain ⟨rfl, rfl⟩ := h
  all_goals exact ⟨rfl, by first | rfl | exact hs⟩

/-- Helper: `_b` is suppression-pure. -/
theorem readB_skipPure (c : Char) : SkipPure (readB c) := by
  intro st b st' hs h
  cases hargs : st.args
  all_goals simp only [readB, RState.next, RState.push, hargs, hs, if_true] at h
  all_goals repeat' split at h
  all_goals rw [RRes.done.injEq] at h
  all_goals obtain ⟨rfl, rfl⟩ := h
  all_goals exact ⟨rfl, by first | rfl | exact hs⟩

/-- Helper: `_f` is suppression-pure. -/
theorem readF_skipPure : SkipPure readF := by
  intro st b st' hs h
  cases hargs : st.args
  all_goals simp only [readF, RState.next, RState.push, hargs, hs, if_true] at h
  all_goals rw [RRes.done.injEq] at h
  all_goals obtain ⟨rfl, rfl⟩ := h
  all_goals exact ⟨rfl, by first | rfl | exact hs⟩

/-- Helper: `_i` is suppression-pure. -/
theorem readI_skipPure : SkipPure readI := by
  intro st b st' hs h
  cases hargs : st.args
  all_goals simp only [readI, RState.next, RState.push, hargs, hs, if_true] at h
  all_goals rw [RRes.done.injEq] at h
  all_goals obtain ⟨rfl, rfl⟩ := h
  all_goals exact ⟨rfl, by first | rfl | exact hs⟩

/-- Helper: `_n` is suppression-pure. -/
theorem readN_skipPure : SkipPure readN := by
  intro st b st' hs h
  cases hargs : st.args
  all_goals simp only [readN, RState.next, RState.push, hargs, hs, if_true] at h
  all_goals rw [RRes.done.injEq] at h
  all_goals obtain ⟨rfl, rfl⟩ := h
  all_goals exact ⟨rfl, by first | rfl | exact hs⟩

/-- Helper: `_s` is suppression-pure. -/
theorem readS_skipPure : SkipPure readS := by
  intro st b st' hs h
  cases hargs : st.args
  all_goals simp only [readS, RState.next, RState.push, hargs, hs, if_true] at h
  all_goals rw [RRes.done.injEq] at h
  all_goals obtain ⟨rfl, rfl⟩ := h
  all_goals exact ⟨rfl, by first | rfl | exact hs⟩

/-- Helper: `_u` is suppression-pure (its whole body, the null error for
`U` included, sits behind the suppression test). -/
theorem readU_skipPure (c : Char) : SkipPure (readU c) := by
  intro st b st' hs h
  cases hargs : st.args
  all_goals simp only [readU, RState.next, RState.fail, RState.push, hargs, hs, if_true] at h
  all_goals rw [RRes.done.injEq] at h
  all_goals obtain ⟨rfl, rfl⟩ := h
  all_goals exact ⟨rfl, by first | rfl | exact hs⟩

/-- Helper: `_0` is suppression-pure. -/
theorem read0_skipPure : SkipPure read0 := by
  intro st b st' hs h
  simp only [read0, RState.fail, RState.push, hs, if_true] at h
  repeat' split at h
  all_goals rw [RRes.done.injEq] at h
  all_goals obtain ⟨rfl, rfl⟩ := h
  all_goals exact ⟨rfl, by first | rfl | exact hs⟩

/-- Helper: `_G` is suppression-pure. -/
theorem readG_skipPure : SkipPure readG := by
  intro st b st' hs h
  cases hargs : st.args
  all_goals simp only [readG, RState.next, RState.push, hargs, hs, if_true] at h
  all_goals rw [RRes.done.injEq] at h
  all_goals obtain ⟨rfl, rfl⟩ := h
  all_goals exact ⟨rfl, by first | rfl | exact hs⟩

/-- Helper: the `_table` element loop is suppression-pure when the element
reader and the loop continuation are. -/
theorem tableBody_skipPure (p : ReadFns) (hE : SkipPure p.elem)
    (hT : SkipPure p.tloop) : SkipPure (tableBody p) := by
  intro st b st' hs h
  unfold tableBody at h
  dsimp only at h
  split at h
  · exact absurd h (by simp)
  · exact absurd h (by simp)
  · rename_i st1 heq
    obtain ⟨h1, h2⟩ := hE st false st1 hs heq
    simp only [RState.fail] at h
    rw [RRes.done.injEq] at h
    obtain ⟨rfl, rfl⟩ := h
    exact ⟨h1, h2⟩
  · rename_i st1 heq
    obtain ⟨h1, h2⟩ := hE st true st1 hs heq
    rw [if_neg (by rw [h1]; omega)] at h
    split at h
    · rw [RRes.done.injEq] at h
      obtain ⟨rfl, rfl⟩ := h
      exact ⟨h1, h2⟩
    · obtain ⟨h3, h4⟩ := hT (st1.advance 1) b st' (by exact h2) h
      exact ⟨by rw [h3]; exact h1, h4⟩

/-- Helper: `_table` is suppression-pure when the loop is. -/
theorem tableEnter_skipPure (p : ReadFns) (hT : SkipPure p.tloop) :
    SkipPure (tableEnter p) := by
  intro st b st' hs h
  unfold tableEnter at h
  dsimp only at h
  rw [if_pos (show ({ st with height := st.height + 1 } : RState).shouldSkip = true
    from hs)] at h
  split at h
  · rename_i st1 heq
    obtain ⟨h1, h2⟩ := hT _ true st1 (by exact hs) heq
    rw [RRes.done.injEq] at h
    obtain ⟨rfl, rfl⟩ := h
    exact ⟨h1, h2⟩
  · obtain ⟨h1, h2⟩ := hT _ b st' (by exact hs) h
    exact ⟨h1, h2⟩

/-- Helper: `_C` is suppression-pure when the element reader is: a nested
conditional inside a suppressed scope leaves suppression on and restores
the saved (true) flag afterward. -/
theorem condBody_skipPure (p : ReadFns) (hE : SkipPure p.elem) :
    SkipPure (condBody p) := by
  intro st b st' hs h
  unfold condBody at h
  split at h
  · simp only [RState.fail] at h
    rw [RRes.done.injEq] at h
    obtain ⟨rfl, rfl⟩ := h
    exact ⟨rfl, hs⟩
  · split at h
    · simp only [RState.fail] at h
      rw [RRes.done.injEq] at h
      obtain ⟨rfl, rfl⟩ := h
      exact ⟨rfl, hs⟩
    · cases hargs : st.args
      all_goals simp only [RState.next, RState.advance, hargs, hs, if_true] at h
      all_goals split at h
      · exact absurd h (by simp)
      · exact absurd h (by simp)
      · rename_i st1 heq
        obtain ⟨h1, h2⟩ := hE _ false st1 rfl heq
        simp only [RState.fail] at h
        rw [RRes.done.injEq] at h
        obtain ⟨rfl, rfl⟩ := h
        exact ⟨h1, h2⟩
      · rename_i st1 heq
        obtain ⟨h1, h2⟩ := hE _ true st1 rfl heq
        rw [RRes.done.injEq] at h
        obtain ⟨rfl, rfl⟩ := h
        exact ⟨h1, rfl⟩
      · exact absurd h (by simp)
      · exact absurd h (by simp)
      · rename_i st1 heq
        obtain ⟨h1, h2⟩ := hE _ false st1 rfl heq
        simp only [RState.fail] at h
        rw [RRes.done.injEq] at h
        obtain ⟨rfl, rfl⟩ := h
        exact ⟨h1, h2⟩
      · rename_i st1 heq
        obtain ⟨h1, h2⟩ := hE _ true st1 rfl heq
        rw [RRes.done.injEq] at h
        obtain ⟨rfl, rfl⟩ := h
        exact ⟨h1, rfl⟩

/-- Helper: `_K` is suppression-pure when the element reader is: under
suppression the final `lua_settable` is skipped. -/
theorem keyBody_skipPure (p : ReadFns) (hE : SkipPure p.elem) :
    SkipPure (keyBody p) := by
  intro st b st' hs h
  unfold keyBody at h
  dsimp only at h
  split at h
  · exact absurd h (by simp)
  · exact absurd h (by simp)
  · rename_i st1 heq
    obtain ⟨h1, h2⟩ := hE _ false st1 (by exact hs) heq
    simp only [RState.fail] at h
    rw [RRes.done.injEq] at h
    obtain ⟨rfl, rfl⟩ := h
    exact ⟨h1, h2⟩
  · rename_i st1 heq
    obtain ⟨h1, h2⟩ := hE _ true st1 (by exact hs) heq
    split at h
    · exact absurd h (by simp)
    · exact absurd h (by simp)
    · rename_i st2 heq2
      obtain ⟨h3, h4⟩ := hE _ false st2 (by exact h2) heq2
      simp only [RState.fail] at h
      rw [RRes.done.injEq] at h
      obtain ⟨rfl, rfl⟩ := h
      exact ⟨h3.trans h1, h4⟩
    · rename_i st2 heq2
      obtain ⟨h3, h4⟩ := hE _ true st2 (by exact h2) heq2
      rw [if_pos (show ({ st2 with inValue := false } : RState).shouldSkip = true
        from h4)] at h
      rw [RRes.done.injEq] at h
      obtain ⟨rfl, rfl⟩ := h
      exact ⟨h3.trans h1, h4⟩

/-- Helper: the element dispatch is suppression-pure when its recursive
positions are. -/
theorem elemCore_skipPure (p : ReadFns) (hE : SkipPure p.elem)
    (hT : SkipPure p.tloop) : SkipPure (elemCore p) := by
  intro st b st' hs h
  unfold elemCore at h
  split at h
  · rw [RRes.done.injEq] at h
    obtain ⟨rfl, rfl⟩ := h
    exact ⟨rfl, hs⟩
  · rename_i c heq
    split at h
    · exact readA_skipPure c st b st' hs h
    · exact readB_skipPure c st b st' hs h
    · exact readF_skipPure st b st' hs h
    · exact readI_skipPure st b st' hs h
    · exact readN_skipPure st b st' hs h
    · exact readS_skipPure st b st' hs h
    · exact readU_skipPure c st b st' hs h
    · exact read0_skipPure st b st' hs h
    · exact readG_skipPure st b st' hs h
    · exact tableEnter_skipPure p hT st b st' hs h
    · split at h
      · simp only [RState.fail] at h
        rw [RRes.done.injEq] at h
        obtain ⟨rfl, rfl⟩ := h
        exact ⟨rfl, hs⟩
      · rw [RRes.done.injEq] at h
        obtain ⟨rfl, rfl⟩ := h
        exact ⟨rfl, hs⟩
    · exact condBody_skipPure p hE st b st' hs h
    · split at h
      · simp only [RState.fail] at h
        rw [RRes.done.injEq] at h
        obtain ⟨rfl, rfl⟩ := h
        exact ⟨rfl, hs⟩
      · exact keyBody_skipPure p hE st b st' hs h
    · simp only [RState.fail] at h
      rw [RRes.done.injEq] at h
      obtain ⟨rfl, rfl⟩ := h
      exact ⟨rfl, hs⟩

/-- Helper: at every fuel level, both reader entry points are
suppression-pure. -/
theorem fns_skipPure (fuel : Nat) :
    SkipPure (fns fuel).elem ∧ SkipPure (fns fuel).tloop := by
  induction fuel with
  | zero =>
      constructor <;> (intro st b st' hs h; exact absurd h (by simp [fns]))
  | succ n ih =>
      obtain ⟨ihE, ihT⟩ := ih
      constructor
      · intro st b st' hs h
        have h2 : elemCore (fns n) { st with toks := st.toks.dropWhile isSpaceC } =
            .done b st' := h
        obtain ⟨h3, h4⟩ := elemCore_skipPure (fns n) ihE ihT _ b st' (by exact hs) h2
        exact ⟨h3, h4⟩
      · intro st b st' hs h
        exact tableBody_skipPure (fns n) ihE ihT st b st' hs h

/-- Witness for C5 at the concrete spec `K0i` inside a table. -/
theorem K_nil_key_rejected_witness :
    ∃ st', readElement 6
        { mkReader ('K' :: '0' :: ['i']) [] [.table .none] 0 nilGlobals nilPseudo with
          height := 1 } = .done false st' ∧
      st'.err = some "Null key" ∧ st'.stack = [.table .none] :=
  (K_nil_key_rejected 4
    { mkReader ('K' :: '0' :: ['i']) [] [.table .none] 0 nilGlobals nilPseudo with
      height := 1 } '0' ['i'] rfl rfl rfl (by decide) rfl).1 rfl

/-- Helper: dispatch of the `C` directive. -/
theorem elemCore_C (p : ReadFns) (st : RState) (tl : List Char)
    (htoks : st.toks = 'C' :: tl) :
    elemCore p st = condBody p st := by
  unfold elemCore
  rw [htoks]
  rfl

/-- Helper: on a flat directive character the dispatch switch runs the
corresponding flat reader. -/
theorem elemCore_flatReader (p : ReadFns) (st : RState) (c : Char)
    (tl : List Char) (htoks : st.toks = c :: tl)
    (hc : classify c = Dir.dA ∨ classify c = Dir.dB ∨ classify c = Dir.dF ∨
      classify c = Dir.dI ∨ classify c = Dir.dN ∨ classify c = Dir.dS ∨
      classify c = Dir.dU ∨ classify c = Dir.d0 ∨ classify c = Dir.dG) :
    elemCore p st = flatReader c st := by
  unfold elemCore flatReader
  rw [htoks]
  dsimp only [List.head?]
  rcases hc with h | h | h | h | h | h | h | h | h <;> rw [h]

/-- Helper: every flat reader returns a `done` result. -/
theorem flatReader_tot (c : Char) (st0 : RState) :
    ∃ b s1, flatReader c st0 = RRes.done b s1 := by
  cases hr : flatReader c st0 with
  | done b s => exact ⟨b, s, rfl⟩
  | timeout =>
      exfalso
      cases hargs : st0.args
      all_goals unfold flatReader at hr
      all_goals split at hr
      all_goals simp only [readA, readB, readF, readI, readN, readS, readU,
        read0, readG, RState.next, RState.fail, RState.push, hargs] at hr
      all_goals repeat' split at hr
      all_goals simp_all
  | crash m =>
      exfalso
      cases hargs : st0.args
      all_goals unfold flatReader at hr
      all_goals split at hr
      all_goals simp only [readA, readB, readF, readI, readN, readS, readU,
        read0, readG, RState.next, RState.fail, RState.push, hargs] at hr
      all_goals repeat' split at hr
      all_goals simp_all

/-- Helper: `_a` under suppression mirrors its unsuppressed run exactly,
except that nothing is pushed. -/
theorem readA_sim (c : Char) (st : RState) (b : Bool) (s1 : RState)
    (h : readA c { st with shouldSkip := false } = RRes.done b s1) :
    readA c { st with shouldSkip := true } =
      RRes.done b { s1 with stack := st.stack, shouldSkip := true } := by
  cases hargs : st.args
  all_goals simp only [readA, RState.next, RState.fail, RState.push, hargs] at h ⊢
  all_goals repeat' split at h
  all_goals rw [RRes.done.injEq] at h
  all_goals obtain ⟨rfl, rfl⟩ := h
  all_goals repeat' split
  all_goals simp_all

/-- Helper: `_b` under suppression mirrors its unsuppressed run. -/
theorem readB_sim (c : Char) (st : RState) (b : Bool) (s1 : RState)
    (h : readB c { st with shouldSkip := false } = RRes.done b s1) :
    readB c { st with shouldSkip := true } =
      RRes.done b { s1 with stack := st.stack, shouldSkip := true } := by
  cases hargs : st.args
  all_goals simp only [readB, RState.next, RState.fail, RState.push, hargs] at h ⊢
  all_goals repeat' split at h
  all_goals rw [RRes.done.injEq] at h
  all_goals obtain ⟨rfl, rfl⟩ := h
  all_goals repeat' split
  all_goals simp_all

/-- Helper: `_f` under suppression mirrors its unsuppressed run. -/
theorem readF_sim (st : RState) (b : Bool) (s1 : RState)
    (h : readF { st with shouldSkip := false } = RRes.done b s1) :
    readF { st with shouldSkip := true } =
      RRes.done b { s1 with stack := st.stack, shouldSkip := true } := by
  cases hargs : st.args
  all_goals simp only [readF, RState.next, RState.fail, RState.push, hargs] at h ⊢
  all_goals rw [RRes.done.injEq] at h
  all_goals obtain ⟨rfl, rfl⟩ := h
  all_goals simp_all

/-- Helper: `_i` under suppression mirrors its unsuppressed run. -/
theorem readI_sim (st : RState) (b : Bool) (s1 : RState)
    (h : readI { st with shouldSkip := false } = RRes.done b s1) :
    readI { st with shouldSkip := true } =
      RRes.done b { s1 with stack := st.stack, shouldSkip := true } := by
  cases hargs : st.args
  all_goals simp only [readI, RState.next, RState.fail, RState.push, hargs] at h ⊢
  all_goals rw [RRes.done.injEq] at h
  all_goals obtain ⟨rfl, rfl⟩ := h
  all_goals simp_all

/-- Helper: `_n` under suppression mirrors its unsuppressed run. -/
theorem readN_sim (st : RState) (b : Bool) (s1 : RState)
    (h : readN { st with shouldSkip := false } = RRes.done b s1) :
    readN { st with shouldSkip := true } =
      RRes.done b { s1 with stack := st.stack, shouldSkip := true } := by
  cases hargs : st.args
  all_goals simp only [readN, RState.next, RState.fail, RState.push, hargs] at h ⊢
  all_goals rw [RRes.done.injEq] at h
  all_goals obtain ⟨rfl, rfl⟩ := h
  all_goals simp_all

/-- Helper: `_s` under suppression mirrors its unsuppressed run. -/
theorem readS_sim (st : RState) (b : Bool) (s1 : RState)
    (h : readS { st with shouldSkip := false } = RRes.done b s1) :
    readS { st with shouldSkip := true } =
      RRes.done b { s1 with stack := st.stack, shouldSkip := true } := by
  cases hargs : st.args
  all_goals simp only [readS, RState.next, RState.fail, RState.push, hargs] at h ⊢
  all_goals rw [RRes.done.injEq] at h
  all_goals obtain ⟨rfl, rfl⟩ := h
  all_goals simp_all

/-- Helper: `_u` on a lowercase `u` under suppression mirrors its
unsuppressed run (for `U` the null-pointer error is itself suppressed, so
the mirror fails, and `U` is excluded from the flat list). -/
theorem readU_sim_u (st : RState) (b : Bool) (s1 : RState)
    (h : readU 'u' { st with shouldSkip := false } = RRes.done b s1) :
    readU 'u' { st with shouldSkip := true } =
      RRes.done b { s1 with stack := st.stack, shouldSkip := true } := by
  cases hargs : st.args
  all_goals simp only [readU, RState.next, RState.fail, RState.push, hargs] at h ⊢
  all_goals repeat' split at h
  all_goals rw [RRes.done.injEq] at h
  all_goals obtain ⟨rfl, rfl⟩ := h
  all_goals repeat' split
  all_goals simp_all

/-- Helper: `_0` under suppression mirrors its unsuppressed run. -/
theorem read0_sim (st : RState) (b : Bool) (s1 : RState)
    (h : read0 { st with shouldSkip := false } = RRes.done b s1) :
    read0 { st with shouldSkip := true } =
      RRes.done b { s1 with stack := st.stack, shouldSkip := true } := by
  simp only [read0, RState.fail, RState.push] at h ⊢
  repeat' split at h
  all_goals rw [RRes.done.injEq] at h
  all_goals obtain ⟨rfl, rfl⟩ := h
  all_goals repeat' split
  all_goals simp_all

/-- Helper: `_G` under suppression mirrors its unsuppressed run. -/
theorem readG_sim (st : RState) (b : Bool) (s1 : RState)
    (h : readG { st with shouldSkip := false } = RRes.done b s1) :
    readG { st with shouldSkip := true } =
      RRes.done b { s1 with stack := st.stack, shouldSkip := true } := by
  cases hargs : st.args
  all_goals simp only [readG, RState.next, RState.fail, RState.push, hargs] at h ⊢
  all_goals rw [RRes.done.injEq] at h
  all_goals obtain ⟨rfl, rfl⟩ := h
  all_goals simp_all

/-- Helper: on the twelve flat directive characters, the suppressed run of
the flat reader mirrors the unsuppressed run except for the push. -/
theorem flatReader_sim (c : Char)
    (hc : c = 'a' ∨ c = 'r' ∨ c = 'b' ∨ c = 'T' ∨ c = 'F' ∨ c = 'f' ∨
      c = 'i' ∨ c = 'n' ∨ c = 's' ∨ c = 'u' ∨ c = '0' ∨ c = 'g')
    (st : RState) (b : Bool) (s1 : RState)
    (h : flatReader c { st with shouldSkip := false } = RRes.done b s1) :
    flatReader c { st with shouldSkip := true } =
      RRes.done b { s1 with stack := st.stack, shouldSkip := true } := by
  rcases hc with rfl | rfl | rfl | rfl | rfl | rfl | rfl | rfl | rfl | rfl | rfl | rfl
  · exact readA_sim 'a' st b s1 h
  · exact readA_sim 'r' st b s1 h
  · exact readB_sim 'b' st b s1 h
  · exact readB_sim 'T' st b s1 h
  · exact readB_sim 'F' st b s1 h
  · exact readF_sim st b s1 h
  · exact readI_sim st b s1 h
  · exact readN_sim st b s1 h
  · exact readS_sim st b s1 h
  · exact readU_sim_u st b s1 h
  · exact read0_sim st b s1 h
  · exact readG_sim st b s1 h

/-- Helper: how `_C` combines the outcome of the guarded element read when
the state enters unsuppressed in neither key nor value position. -/
theorem condBody_agree (p : ReadFns) (st : RState) (c : Char)
    (rest : List Char) (as : List NativeArg) (b0 : Bool) (s1 : RState)
    (htoks : st.toks = 'C' :: c :: rest)
    (hkey : st.inKey = false) (hval : st.inValue = false)
    (hskip : st.shouldSkip = false)
    (hT : p.elem { st with toks := c :: rest, args := as, shouldSkip := false } =
      RRes.done b0 s1)
    (hF : p.elem { st with toks := c :: rest, args := as, shouldSkip := true } =
      RRes.done b0 { s1 with stack := st.stack, shouldSkip := true }) :
    ∃ b sF sT,
      condBody p { st with args := NativeArg.boolean false :: as } = RRes.done b sF ∧
      condBody p { st with args := NativeArg.boolean true :: as } = RRes.done b sT ∧
      sF.toks = sT.toks ∧ sF.args = sT.args ∧ sF.err = sT.err ∧
      sF.stack = st.stack := by
  have hrun : ∀ (bv bI : Bool) (sI : RState),
      p.elem { st with toks := c :: rest, args := as, shouldSkip := !bv } =
        RRes.done bI sI →
      condBody p { st with args := NativeArg.boolean bv :: as } =
        (if bI then RRes.done true { sI with shouldSkip := false }
         else sI.fail "Unfinished condition") := by
    intro bv bI sI hinner
    simp only [hkey, hval, hskip] at hinner
    unfold condBody
    simp only [RState.advance, RState.next, NativeArg.asBool, hkey, hval,
      hskip, htoks, List.drop_one, List.tail_cons, Bool.false_eq_true,
      if_false, if_true]
    rw [hinner]
    cases bI <;> rfl
  cases b0 with
  | false =>
      have hF' := hrun false false _ hF
      have hT' := hrun true false _ hT
      refine ⟨false, _, _, hF', hT', ?_, ?_, ?_, ?_⟩ <;> rfl
  | true =>
      have hF' := hrun false true _ hF
      have hT' := hrun true true _ hT
      refine ⟨true, _, _, hF', hT', ?_, ?_, ?_, ?_⟩ <;> rfl

/-- C4 (corrected): when a `C` directive reads a false condition the next
element is read with suppression (`mShouldSkip`) set, and suppression
means: (1) a suppressed read never changes the Lua stack and keeps the
flag set, and (2) when the guarded element is a single flat directive
(one of `a r b T F f i n s u 0 g`), the false-condition run consumes
exactly the same format characters and varargs as the true-condition run,
finishes with the same success flag and the same recorded error, and
pushes nothing.  (For `U` and for `{...}` elements the stronger
sentence of the specification fails; see the counterexample.) -/
theorem conditional_false_suppression :
    (∀ (fuel : Nat) (st : RState) (b : Bool) (st' : RState),
        st.shouldSkip = true → readElement fuel st = RRes.done b st' →
        st'.stack = st.stack ∧ st'.shouldSkip = true) ∧
    (∀ (fuel : Nat) (st : RState) (c : Char) (rest : List Char)
        (as : List NativeArg),
        st.toks = 'C' :: c :: rest →
        (c = 'a' ∨ c = 'r' ∨ c = 'b' ∨ c = 'T' ∨ c = 'F' ∨ c = 'f' ∨
          c = 'i' ∨ c = 'n' ∨ c = 's' ∨ c = 'u' ∨ c = '0' ∨ c = 'g') →
        st.inKey = false → st.inValue = false → st.shouldSkip = false →
        ∃ b sF sT,
          readElement (fuel + 2) { st with args := NativeArg.boolean false :: as } =
            RRes.done b sF ∧
          readElement (fuel + 2) { st with args := NativeArg.boolean true :: as } =
            RRes.done b sT ∧
          sF.toks = sT.toks ∧ sF.args = sT.args ∧ sF.err = sT.err ∧
          sF.stack = st.stack) := by
  constructor
  · intro fuel st b st' hs h
    exact (fns_skipPure fuel).1 st b st' hs h
  · intro fuel st c rest as htoks hc hkey hval hskip
    have hns : isSpaceC c = false := by
      rcases hc with rfl | rfl | rfl | rfl | rfl | rfl | rfl | rfl | rfl | rfl | rfl | rfl <;> rfl
    have hcls : classify c = Dir.dA ∨ classify c = Dir.dB ∨
        classify c = Dir.dF ∨ classify c = Dir.dI ∨ classify c = Dir.dN ∨
        classify c = Dir.dS ∨ classify c = Dir.dU ∨ classify c = Dir.d0 ∨
        classify c = Dir.dG := by
      rcases hc with rfl | rfl | rfl | rfl | rfl | rfl | rfl | rfl | rfl | rfl | rfl | rfl <;> decide
    obtain ⟨b0, s1, h1⟩ :=
      flatReader_tot c { st with toks := c :: rest, args := as, shouldSkip := false }
    have h2 := flatReader_sim c hc { st with toks := c :: rest, args := as } b0 s1 h1
    have hdispatch : ∀ (bb : Bool),
        (fns (fuel + 1)).elem { st with toks := c :: rest, args := as, shouldSkip := bb } =
        flatReader c { st with toks := c :: rest, args := as, shouldSkip := bb } := by
      intro bb
      show elemBody (fns fuel) _ = _
      rw [elemBody_nonspace (fns fuel)
        { st with toks := c :: rest, args := as, shouldSkip := bb } c rest rfl hns]
      exact elemCore_flatReader (fns fuel)
        { st with toks := c :: rest, args := as, shouldSkip := bb } c rest rfl hcls
    have hT : (fns (fuel + 1)).elem
        { st with toks := c :: rest, args := as, shouldSkip := false } =
        RRes.done b0 s1 := (hdispatch false).trans h1
    have hF : (fns (fuel + 1)).elem
        { st with toks := c :: rest, args := as, shouldSkip := true } =
        RRes.done b0 { s1 with stack := st.stack, shouldSkip := true } :=
      (hdispatch true).trans h2
    obtain ⟨b, sF, sT, hcF, hcT, e1, e2, e3, e4⟩ :=
      condBody_agree (fns (fuel + 1)) st c rest as b0 s1 htoks hkey hval hskip hT hF
    have houterF : readElement (fuel + 2)
        { st with args := NativeArg.boolean false :: as } =
        condBody (fns (fuel + 1)) { st with args := NativeArg.boolean false :: as } := by
      show elemBody (fns (fuel + 1)) _ = _
      rw [elemBody_nonspace (fns (fuel + 1))
        { st with args := NativeArg.boolean false :: as } 'C' (c :: rest) htoks rfl]
      exact elemCore_C (fns (fuel + 1))
        { st with args := NativeArg.boolean false :: as } (c :: rest) htoks
    have houterT : readElement (fuel + 2)
        { st with args := NativeArg.boolean true :: as } =
        condBody (fns (fuel + 1)) { st with args := NativeArg.boolean true :: as } := by
      show elemBody (fns (fuel + 1)) _ = _
      rw [elemBody_nonspace (fns (fuel + 1))
        { st with args := NativeArg.boolean true :: as } 'C' (c :: rest) htoks rfl]
      exact elemCore_C (fns (fuel + 1))
        { st with args := NativeArg.boolean true :: as } (c :: rest) htoks
    exact ⟨b, sF, sT, houterF.trans hcF, houterT.trans hcT, e1, e2, e3, e4⟩

/-- Witness for C4 at a suppressed `i` read and at the spec `C i`. -/
theorem conditional_false_suppression_witness :
    (∃ st1, readElement 1 wSupp = RRes.done true st1 ∧
      st1.stack = wSupp.stack ∧ st1.shouldSkip = true) ∧
    (∃ b sF sT,
      readElement 3 { wCond with args := [NativeArg.boolean false, NativeArg.int 5] } =
        RRes.done b sF ∧
      readElement 3 { wCond with args := [NativeArg.boolean true, NativeArg.int 5] } =
        RRes.done b sT ∧
      sF.toks = sT.toks ∧ sF.args = sT.args ∧ sF.err = sT.err ∧
      sF.stack = wCond.stack) := by
  constructor
  · obtain ⟨h1, h2⟩ :=
      conditional_false_suppression.1 1 wSupp true { wSupp with args := [] } rfl rfl
    exact ⟨{ wSupp with args := [] }, rfl, h1, h2⟩
  · exact conditional_false_suppression.2 1 wCond 'i' [] [NativeArg.int 5] rfl
      (by decide) rfl rfl rfl

end Lua

